import Mathlib

/-!
Verification development for the unused-node analysis add-on.

The repository's core (`utils.py`, plus the mutating operators of
`operators.py`) is shallowly embedded below.  Conventions of the embedding:

* A node (`bpy.types.Node`) becomes `NodeData`.  Node identity (Python object
  identity, used e.g. as a dictionary key) is modelled by the `id` field; a
  well-formed graph gives distinct nodes distinct ids.
* A socket is represented by the list of node ids at the far end of its
  links: `inputs` holds, per input socket, the ids of the `from_node`s of the
  links attached to it, and `outputs` holds, per output socket, the ids of
  the `to_node`s.  A socket's `is_linked` is nonemptiness of its list.
* A node tree (`bpy.types.NodeTree`) becomes the nested inductive `NTree`;
  a GROUP node's `node_tree` reference is the `Option NTree` payload stored
  next to its `NodeData`, and the `gtree` field mirrors the identity
  (`tid`) of that referenced tree, so that reference comparison of
  `node.node_tree` objects becomes comparison of `gtree` handles.
* Python `float` coordinates are modelled by `ℚ` (the functions below use
  only `+ - * max min`, so rational arithmetic is exact).
* Python dictionaries become association lists that keep insertion order;
  Python sets are modelled by lists, iterated in the underlying node-list
  order.
* Functions whose Python parameters may be `None` (falsy) take `Option`
  arguments; the `none` case mirrors the corresponding truthiness guard.
-/

/-- Data carried by one node, apart from the structurally nested payload
tree of a group node (see `NTree`). -/
structure NodeData where
  id : Nat
  name : String
  type : String
  bl_idname : String
  label : String
  x : ℚ
  y : ℚ
  width : ℚ
  height : ℚ
  inputs : List (List Nat)
  outputs : List (List Nat)
  gtree : Option Nat
  parent : Option Nat
deriving DecidableEq

/-- Record stored per unused node by `find_unused_nodes`
(`utils.py` lines 132-143). -/
structure Record where
  type : String
  materials : List String
  connected_to_output : List String
  parent_tree : String
deriving DecidableEq

mutual

/-- A node tree: identity handle, name, and node entries.  (A mutual
inductive rather than a `List`-nested one, so that recursion over nested
group payloads is structural and kernel-evaluable.) -/
inductive NTree where
  | mk (tid : Nat) (name : String) (nodes : NodeEntries) : NTree

/-- Node list of a tree; a `grp` entry is a node whose `node_tree`
reference is present (the payload tree is stored alongside), a `plain`
entry is a node whose `node_tree` reference is absent or `None`. -/
inductive NodeEntries where
  | nil : NodeEntries
  | grp (d : NodeData) (sub : NTree) (rest : NodeEntries) : NodeEntries
  | plain (d : NodeData) (rest : NodeEntries) : NodeEntries

end

def NTree.tid : NTree → Nat
  | .mk i _ _ => i

def NTree.name : NTree → String
  | .mk _ n _ => n

def NTree.entries : NTree → NodeEntries
  | .mk _ _ ns => ns

/-- View of the node entries as a list of node data with optional payload
tree. -/
def NodeEntries.toList : NodeEntries → List (NodeData × Option NTree)
  | .nil => []
  | .grp d sub rest => (d, some sub) :: rest.toList
  | .plain d rest => (d, none) :: rest.toList

/-- Rebuild node entries from the list view. -/
def NodeEntries.ofList : List (NodeData × Option NTree) → NodeEntries
  | [] => .nil
  | (d, some sub) :: rest => .grp d sub (NodeEntries.ofList rest)
  | (d, none) :: rest => .plain d (NodeEntries.ofList rest)

/-- Nodes of a tree, as the list view. -/
def NTree.nodes (t : NTree) : List (NodeData × Option NTree) := t.entries.toList

/-- Node data of a tree, payload references stripped. -/
def NTree.datas (t : NTree) : List NodeData := t.nodes.map Prod.fst

/-- A material: name, `use_nodes` flag, and its (possibly absent) node tree. -/
structure Material where
  name : String
  use_nodes : Bool
  node_tree : Option NTree

/-- Output node type tags (`utils.py` lines 52-56). -/
def output_types : List String :=
  ["OUTPUT_MATERIAL", "OUTPUT_WORLD", "OUTPUT_LIGHT",
   "CompositorNodeComposite", "CompositorNodeOutputFile",
   "CompositorNodeViewer", "NodeGroupOutput"]

/-- Embedding of `get_output_nodes` (`utils.py` lines 43-63): the nodes
whose type is in `output_types`, in node-list order. -/
def get_output_nodes (t : NTree) : List NodeData :=
  t.datas.filter (fun n => output_types.contains n.type)

/-- Neighbour ids followed by `visit` (`utils.py` lines 84-89): for every
link on every input socket its `from_node`, then for every link on every
output socket its `to_node`. -/
def nbrIds (n : NodeData) : List Nat :=
  n.inputs.flatten ++ n.outputs.flatten

/-- Node lookup by id inside one tree's node-data list. -/
def findNode (ns : List NodeData) (nid : Nat) : Option NodeData :=
  ns.find? (fun n => n.id == nid)

/-- Embedding of the recursive `visit` of `traverse_from_outputs`
(`utils.py` lines 80-89), with an explicit structural fuel for
termination.  `visitF` at fuel `f+1` behaves exactly like `visit`: it
returns the visited set unchanged when the node was already visited,
otherwise marks it visited and recurses into every neighbour.  Fuel
`ns.length + 1` is always sufficient (see `visitF_closed`): every level of
real recursion adds one hitherto unvisited node of `ns` to `used`. -/
def visitF (ns : List NodeData) : Nat → List Nat → Nat → List Nat
  | 0, used, _ => used
  | f + 1, used, nid =>
    if nid ∈ used then used
    else
      match findNode ns nid with
      | none => nid :: used
      | some node => (nbrIds node).foldl (fun u m => visitF ns f u m) (nid :: used)

/-- Embedding of `traverse_from_outputs` (`utils.py` lines 69-94): visit
from every output node, sharing the visited set.  Returns the visited node
ids. -/
def traverse_from_outputs (t : NTree) : List Nat :=
  (get_output_nodes t).foldl
    (fun used o => visitF t.datas (t.datas.length + 1) used o.id) []

/-- Ids of all nodes of a tree. -/
def allIds (t : NTree) : List Nat := t.datas.map (fun n => n.id)

/-- Used-node id set of `find_unused_nodes` (`utils.py` line 120). -/
def usedIdSet (t : NTree) : Finset Nat := (traverse_from_outputs t).toFinset

/-- Unused id set computed at `utils.py` lines 123-124:
`all_nodes - used_nodes`. -/
def unusedIdSet (t : NTree) : Finset Nat := (allIds t).toFinset \ usedIdSet t

/-- Unused nodes of a tree as a list (the set `all_nodes - used_nodes` of
`utils.py` line 124, iterated in node-list order). -/
def unused_nodes_raw (t : NTree) : List NodeData :=
  t.datas.filter (fun n => ¬ (traverse_from_outputs t).contains n.id)

/-- Attribute-source test of the filter at `utils.py` lines 128-130. -/
def isAttributeSource (n : NodeData) : Bool :=
  n.type == "ATTRIBUTE" || n.bl_idname == "ShaderNodeAttribute" ||
    n.bl_idname == "GeometryNodeInputNamedAttribute"

/-- Embedding of `find_unused_nodes` (`utils.py` lines 100-144).  `none`
mirrors the `if not node_tree: return {}` guard; a tree without output
nodes returns the empty dictionary; otherwise the unused nodes (all nodes
minus the traversal result, optionally dropping attribute sources) are
mapped to fresh records stamped with `parent_tree_name`, or the tree's own
name when that is empty. -/
def find_unused_nodes : Option NTree → String → Bool → List (NodeData × Record)
  | none, _, _ => []
  | some tree, parent_tree_name, show_attributes =>
    let output_nodes := get_output_nodes tree
    if output_nodes.isEmpty then []
    else
      let unused0 := unused_nodes_raw tree
      let unused_nodes :=
        if show_attributes then unused0
        else unused0.filter (fun n => !(isAttributeSource n))
      let tree_name := if parent_tree_name == "" then tree.name else parent_tree_name
      unused_nodes.map (fun n =>
        (n, { type := n.type, materials := [], connected_to_output := [],
              parent_tree := tree_name }))

/-- Python `dict.update` on an insertion-ordered association list: keys
already present keep their position but take the new value; new keys are
appended in order. -/
def dictUpdate (d nd : List (NodeData × Record)) : List (NodeData × Record) :=
  (d.map (fun p =>
      match nd.find? (fun q => q.1 == p.1) with
      | some q => (p.1, q.2)
      | none => p))
    ++ nd.filter (fun q => !(d.any (fun p => p.1 == q.1)))

/-- Key membership in an association list. -/
def dictHasKey (k : NodeData) (d : List (NodeData × Record)) : Bool :=
  d.any (fun p => p.1 == k)

/-- First entry with the given key. -/
def dictFind (k : NodeData) (d : List (NodeData × Record)) :
    Option (NodeData × Record) :=
  d.find? (fun p => p.1 == k)

/-- Nested containment path of `utils.py` line 196:
`f"{parent}.{name}" if parent_tree_name else name`. -/
def nestedName (parent nodeName : String) : String :=
  if parent == "" then nodeName else parent ++ "." ++ nodeName

mutual

/-- Embedding of the body of `find_unused_nodes_recursive` (`utils.py`
lines 189-204): compute the tree's own unused dictionary, then for every
unused GROUP node with a payload tree recurse with the dotted nested name
and merge via `dict.update`.  The Python iteration over the snapshot of
the dictionary's keys is rendered as iteration over the node entries
restricted to keys of the snapshot `base`: both run over the unused nodes
of the tree in the same relative order. -/
def findUnusedRecTree : NTree → String → Bool → List (NodeData × Record)
  | .mk tid nm es, parent_tree_name, show_attributes =>
    let base :=
      find_unused_nodes (some (.mk tid nm es)) parent_tree_name show_attributes
    findUnusedRecEntries es parent_tree_name show_attributes base base

/-- Loop of `utils.py` lines 193-202 over the node entries: `base` is the
snapshot of the dictionary's keys, `acc` the dictionary being merged
into. -/
def findUnusedRecEntries (es : NodeEntries) (parent_tree_name : String)
    (show_attributes : Bool) (base acc : List (NodeData × Record)) :
    List (NodeData × Record) :=
  match es with
  | .nil => acc
  | .plain _ rest => findUnusedRecEntries rest parent_tree_name show_attributes base acc
  | .grp d sub rest =>
    let acc2 :=
      if d.type == "GROUP" && dictHasKey d base then
        dictUpdate acc
          (findUnusedRecTree sub (nestedName parent_tree_name d.name) show_attributes)
      else acc
    findUnusedRecEntries rest parent_tree_name show_attributes base acc2

end

/-- Embedding of `find_unused_nodes_recursive` (`utils.py` lines 175-204);
`none` mirrors the `if not node_tree: return {}` guard. -/
def find_unused_nodes_recursive (o : Option NTree) (parent_tree_name : String)
    (show_attributes : Bool) : List (NodeData × Record) :=
  match o with
  | none => []
  | some tree => findUnusedRecTree tree parent_tree_name show_attributes

/-- Embedding of `is_group_connected_to_output` (`utils.py` lines
334-358): `False` on a missing node or tree, `False` when the group has no
output sockets, otherwise whether some output socket is linked. -/
def is_group_connected_to_output : Option NodeData → Option NTree → Bool
  | none, _ => false
  | some _, none => false
  | some group_node, some _ =>
    if group_node.outputs.isEmpty then false
    else group_node.outputs.any (fun s => !(s.isEmpty))

/-- Update of a single dictionary entry inside `collect_group_usage`
(`utils.py` lines 161-172), for one instance `node` found in the tree of
`material`: when the entry's key is a GROUP whose payload reference equals
the instance's and the material is not yet recorded, append the material
name to `materials`; then, if the material is not yet in
`connected_to_output` and the instance is connected to an output, append
it there too.  (The `if "connected_to_output" not in info` guard of the
source is vacuous here: the `Record` type always carries the field.) -/
def cguUpdateEntry (material_name : String) (node : NodeData) (mtree : NTree)
    (pr : NodeData × Record) : NodeData × Record :=
  if pr.1.type == "GROUP" && pr.1.gtree == node.gtree &&
      !(pr.2.materials.contains material_name) then
    let info1 := { pr.2 with materials := pr.2.materials ++ [material_name] }
    if !(info1.connected_to_output.contains material_name) &&
        is_group_connected_to_output (some node) (some mtree) then
      (pr.1, { info1 with
        connected_to_output := info1.connected_to_output ++ [material_name] })
    else (pr.1, info1)
  else pr

/-- Inner loop body of `collect_group_usage` (`utils.py` lines 158-172):
for a node of the material's tree that is a GROUP with a payload, update
every dictionary entry. -/
def cguProcessNode (material_name : String) (mtree : NTree)
    (dict : List (NodeData × Record)) (node : NodeData) :
    List (NodeData × Record) :=
  if node.type == "GROUP" && node.gtree.isSome then
    dict.map (cguUpdateEntry material_name node mtree)
  else dict

/-- Outer loop body of `collect_group_usage` (`utils.py` lines 154-172):
materials without nodes are skipped. -/
def cguProcessMaterial (dict : List (NodeData × Record)) (material : Material) :
    List (NodeData × Record) :=
  if !material.use_nodes then dict
  else
    match material.node_tree with
    | none => dict
    | some mtree => mtree.datas.foldl (cguProcessNode material.name mtree) dict

/-- Embedding of `collect_group_usage` (`utils.py` lines 147-172).  The
source mutates `unused_dict` in place; the embedding returns the updated
dictionary. -/
def collect_group_usage (unused_dict : List (NodeData × Record))
    (materials : List Material) : List (NodeData × Record) :=
  materials.foldl cguProcessMaterial unused_dict

/-- Modelled from the host API (`NodeTree.nodes.remove`), whose behaviour
the spec relies on in §4.6 and §8: removing a node removes it and every
link attached to it (no dangling links remain), and removing a node that
does not belong to the tree raises an error.  Only link endpoints equal to
the removed id are dropped from the surviving nodes' sockets. -/
def nodes_remove (t : NTree) (nid : Nat) : Except String NTree :=
  if t.nodes.any (fun p => p.1.id == nid) then
    Except.ok (NTree.mk t.tid t.name (NodeEntries.ofList
      ((t.nodes.filter (fun p => p.1.id ≠ nid)).map
        (fun p =>
          ({ p.1 with
              inputs := p.1.inputs.map (fun s => s.filter (fun m => m ≠ nid)),
              outputs := p.1.outputs.map (fun s => s.filter (fun m => m ≠ nid)) },
            p.2)))))
  else Except.error "unable to locate node in node tree"

/-- Removal loop of `NODE_OT_DeleteUnusedNodes.execute` (`operators.py`
lines 233-234) with the operator's exception handler (lines 239-242): each
id is removed from the active tree; the first failure is caught and the
operator reports CANCELLED, keeping the mutations already applied. -/
def deleteLoop : NTree → List Nat → String × NTree
  | t, [] => ("FINISHED", t)
  | t, nid :: rest =>
    match nodes_remove t nid with
    | Except.ok t2 => deleteLoop t2 rest
    | Except.error _ => ("CANCELLED", t)

/-- Embedding of the core of `NODE_OT_DeleteUnusedNodes.execute`
(`operators.py` lines 213-242): run the recursive analysis on the active
tree and remove every key of the resulting dictionary from that tree; an
empty dictionary is reported as a normal FINISHED outcome. -/
def executeDeleteUnused (tree : NTree) : String × NTree :=
  let unused_dict := find_unused_nodes_recursive (some tree) "" true
  if unused_dict.isEmpty then ("FINISHED", tree)
  else deleteLoop tree (unused_dict.map (fun pr => pr.1.id))

/-- Sorting key order of `layout_nodes_grid` (`utils.py` line 254): Python
`sorted(key=lambda n: (-n.location.y, n.location.x))`, i.e. descending
`y`, ties broken by ascending `x`. -/
def gridBefore (a b : NodeData) : Prop :=
  b.y < a.y ∨ (a.y = b.y ∧ a.x ≤ b.x)

instance : DecidableRel gridBefore := by
  intro a b
  unfold gridBefore
  infer_instance

/-- Column-width loop of `utils.py` lines 255-266: starting from `cols`
zeroes, fold over the enumerated sorted nodes, raising entry `i % cols` to
the node's width when larger. -/
def colWidths (sorted : List NodeData) (cols : Nat) : List ℚ :=
  sorted.enum.foldl
    (fun cw p => cw.set (p.1 % cols) (max (cw.getD (p.1 % cols) 0) p.2.width))
    (List.replicate cols 0)

/-- Row-height loop of `utils.py` lines 257-267: a fresh `0.0` entry is
appended when a row starts, then raised to each row member's height
(`dimensions[1]`). -/
def rowHeights (sorted : List NodeData) (cols : Nat) : List ℚ :=
  sorted.enum.foldl
    (fun rh p =>
      let r := p.1 / cols
      let rh2 := if rh.length ≤ r then rh ++ [0] else rh
      rh2.set r (max (rh2.getD r 0) p.2.height))
    []

/-- Placement loops of `utils.py` lines 269-276: the node at index `i`
(row `i / cols`, column `i % cols` of the grid) goes to
`x = origin_x + sum(col_w[:c]) + c * gap_x` and
`y = origin_y - sum(row_h[:r]) - r * gap_y`, the origin being the min-x /
max-y of the nodes. -/
def gridPlace (sorted : List NodeData) (cols : Nat) (gap_x gap_y : ℚ) :
    List NodeData :=
  let cw := colWidths sorted cols
  let rh := rowHeights sorted cols
  let origin_x := ((sorted.map (fun n => n.x)).min?).getD 0
  let origin_y := ((sorted.map (fun n => n.y)).max?).getD 0
  sorted.enum.map (fun p =>
    let r := p.1 / cols
    let c := p.1 % cols
    { p.2 with
        x := origin_x + (cw.take c).sum + (c : ℚ) * gap_x,
        y := origin_y - (rh.take r).sum - (r : ℚ) * gap_y })

/-- Embedding of `layout_nodes_grid` (`utils.py` lines 226-281).  The
source mutates node locations in place; the embedding returns the nodes
with their new locations, the grid-placed regular nodes first (in sorted
order) followed by the attribute nodes.  `List.insertionSort` is a stable
sort, hence produces the same sequence as Python's stable `sorted`.  The
attribute pass moves each `_tmp_attr` node next to the regular node whose
name is its own name minus the `Attr_` marker (node identity resolved via
`id`); attribute nodes without such a parent keep their location, as in
the source where they are simply absent from `attr_to_parent`. -/
def layout_nodes_grid (nodes : List NodeData) (cols : Nat := 6)
    (gap_x : ℚ := 120) (gap_y : ℚ := 80) : List NodeData :=
  if nodes.isEmpty then nodes
  else
    let attr_nodes := nodes.filter (fun n => n.label == "_tmp_attr")
    let regular_nodes := nodes.filter (fun n => !(n.label == "_tmp_attr"))
    if regular_nodes.isEmpty then nodes
    else
      let sorted := regular_nodes.insertionSort gridBefore
      let placed := gridPlace sorted cols gap_x gap_y
      let attrPlaced := attr_nodes.map (fun a =>
        let parent_name := a.name.replace "Attr_" ""
        match regular_nodes.find? (fun p => p.name == parent_name) with
        | some par =>
          match placed.find? (fun q => q.id == par.id) with
          | some pq => { a with x := pq.x - 150, y := pq.y }
          | none => a
        | none => a)
      placed ++ attrPlaced

/-- Fresh id for a node created by `tree.nodes.new` (modelled: one more
than the largest id in the tree). -/
def newFrameId (t : NTree) : Nat := (allIds t).foldr max 0 + 1

/-- Embedding of `place_group_left_of_used` (`utils.py` lines 287-325):
grid-lay out the group nodes, translate them so that their maximal `x`
sits `margin` left of the used nodes' minimal `x` (default `0.0` when
there are no used nodes), create the frame at the shifted block's
upper-left corner (with 40-unit padding and `width = 0`), and parent every
moved node to the frame.  Returns the moved nodes and the frame, or `none`
for an empty group list. -/
def place_group_left_of_used (tree : NTree) (group_nodes used_nodes : List NodeData)
    (margin : ℚ := 400) : Option (List NodeData × NodeData) :=
  if group_nodes.isEmpty then none
  else
    let laid := layout_nodes_grid group_nodes
    let used_min_x := ((used_nodes.map (fun n => n.x)).min?).getD 0
    let max_group_x := ((laid.map (fun n => n.x)).max?).getD 0
    let dx := (used_min_x - margin) - max_group_x
    let moved := laid.map (fun n => { n with x := n.x + dx })
    let xs := moved.map (fun n => n.x)
    let ys := moved.map (fun n => n.y)
    let frame : NodeData :=
      { id := newFrameId tree, name := "NodeFrame", type := "FRAME",
        bl_idname := "NodeFrame", label := "The Material Editor Exterminatus",
        x := (xs.min?).getD 0 - 40, y := (ys.max?).getD 0 + 40,
        width := 0, height := 0, inputs := [], outputs := [],
        gtree := none, parent := none }
    some (moved.map (fun n => { n with parent := some frame.id }), frame)

/-! ## Correctness of the traversal (claims C1, C2, C4) -/

/-- One step of the traversal of `visit`: from node id `a`, whose node
carries `b` among the link endpoints on its sockets, to `b`. -/
def stepRel (ns : List NodeData) (a b : Nat) : Prop :=
  ∃ n, findNode ns a = some n ∧ b ∈ nbrIds n

/-- A link between the nodes with ids `a` and `b`, in the direction
recorded on `a`'s sockets. -/
def linkedIds (ns : List NodeData) (a b : Nat) : Prop :=
  ∃ n ∈ ns, n.id = a ∧ b ∈ nbrIds n

/-- Undirected adjacency: some link joins `a` and `b`, in either
direction. -/
def undirStep (ns : List NodeData) (a b : Nat) : Prop :=
  linkedIds ns a b ∨ linkedIds ns b a

/-- A node id is connected to some output-terminal node of the tree,
ignoring link direction. -/
def connectedToOutput (t : NTree) (x : Nat) : Prop :=
  ∃ o ∈ get_output_nodes t, Relation.ReflTransGen (undirStep t.datas) o.id x

lemma visitF_subset (ns : List NodeData) :
    ∀ (f : Nat) (used : List Nat) (nid : Nat), used ⊆ visitF ns f used nid := by
  intro f
  induction f with
  | zero => intro used nid; simp [visitF]
  | succ f ih =>
    intro used nid
    by_cases h : nid ∈ used
    · simp [visitF, h]
    · cases hf : findNode ns nid with
      | none =>
        simp only [visitF, if_neg h, hf]
        exact List.subset_cons_of_subset _ (List.Subset.refl _)
      | some node =>
        simp only [visitF, if_neg h, hf]
        have fold : ∀ (ms : List Nat) (u : List Nat),
            u ⊆ ms.foldl (fun u m => visitF ns f u m) u := by
          intro ms
          induction ms with
          | nil => intro u; simp
          | cons m rest ihm =>
            intro u
            simp only [List.foldl_cons]
            exact (ih u m).trans (ihm (visitF ns f u m))
        exact (List.subset_cons_of_subset _ (List.Subset.refl _)).trans
          (fold (nbrIds node) (nid :: used))

lemma foldl_visitF_subset (ns : List NodeData) (f : Nat) :
    ∀ (ms : List Nat) (u : List Nat),
      u ⊆ ms.foldl (fun u m => visitF ns f u m) u := by
  intro ms
  induction ms with
  | nil => intro u; simp
  | cons m rest ihm =>
    intro u
    simp only [List.foldl_cons]
    exact (visitF_subset ns f u m).trans (ihm (visitF ns f u m))

lemma visitF_nodup (ns : List NodeData) :
    ∀ (f : Nat) (used : List Nat) (nid : Nat), used.Nodup →
      (visitF ns f used nid).Nodup := by
  intro f
  induction f with
  | zero => intro used nid h; simpa [visitF] using h
  | succ f ih =>
    intro used nid h
    by_cases hm : nid ∈ used
    · simpa [visitF, hm] using h
    · cases hf : findNode ns nid with
      | none =>
        simp only [visitF, if_neg hm, hf]
        exact List.Nodup.cons hm h
      | some node =>
        simp only [visitF, if_neg hm, hf]
        have fold : ∀ (ms : List Nat) (u : List Nat), u.Nodup →
            (ms.foldl (fun u m => visitF ns f u m) u).Nodup := by
          intro ms
          induction ms with
          | nil => intro u hu; simpa using hu
          | cons m rest ihm =>
            intro u hu
            simp only [List.foldl_cons]
            exact ihm _ (ih u m hu)
        exact fold (nbrIds node) (nid :: used) (List.Nodup.cons hm h)

lemma findNode_mem_id (ns : List NodeData) (nid : Nat) (node : NodeData)
    (h : findNode ns nid = some node) : node ∈ ns ∧ node.id = nid := by
  refine ⟨List.mem_of_find?_eq_some h, ?_⟩
  have := List.find?_some h
  simpa using this

lemma visitF_sound (ns : List NodeData) :
    ∀ (f : Nat) (used : List Nat) (nid : Nat) (x : Nat),
      x ∈ visitF ns f used nid →
      x ∈ used ∨ Relation.ReflTransGen (stepRel ns) nid x := by
  intro f
  induction f with
  | zero => intro used nid x hx; exact Or.inl (by simpa [visitF] using hx)
  | succ f ih =>
    intro used nid x hx
    by_cases hm : nid ∈ used
    · simp only [visitF, if_pos hm] at hx
      exact Or.inl hx
    · cases hf : findNode ns nid with
      | none =>
        simp only [visitF, if_neg hm, hf] at hx
        rcases List.mem_cons.mp hx with hx1 | hx1
        · exact Or.inr (hx1 ▸ Relation.ReflTransGen.refl)
        · exact Or.inl hx1
      | some node =>
        simp only [visitF, if_neg hm, hf] at hx
        have fold : ∀ (ms : List Nat) (u : List Nat) (x : Nat),
            x ∈ ms.foldl (fun u m => visitF ns f u m) u →
            x ∈ u ∨ ∃ m ∈ ms, Relation.ReflTransGen (stepRel ns) m x := by
          intro ms
          induction ms with
          | nil => intro u x hx; exact Or.inl (by simpa using hx)
          | cons m rest ihm =>
            intro u x hx
            simp only [List.foldl_cons] at hx
            rcases ihm _ _ hx with hx2 | ⟨m2, hm2, hr⟩
            · rcases ih u m x hx2 with hx3 | hr
              · exact Or.inl hx3
              · exact Or.inr ⟨m, List.mem_cons_self .., hr⟩
            · exact Or.inr ⟨m2, List.mem_cons_of_mem _ hm2, hr⟩
        rcases fold (nbrIds node) (nid :: used) x hx with hx2 | ⟨m, hmem, hr⟩
        · rcases List.mem_cons.mp hx2 with h1 | h1
          · exact Or.inr (h1 ▸ Relation.ReflTransGen.refl)
          · exact Or.inl h1
        · exact Or.inr (Relation.ReflTransGen.head ⟨node, hf, hmem⟩ hr)

/-- Number of node ids not yet visited. -/
def unvisitedCard (ns : List NodeData) (used : List Nat) : Nat :=
  ((ns.map (fun n => n.id)).toFinset \ used.toFinset).card

/-- The result list contains, for node id `a`, every neighbour of `a`'s
node. -/
def closedAt (ns : List NodeData) (res : List Nat) (a : Nat) : Prop :=
  ∀ node, findNode ns a = some node → ∀ b ∈ nbrIds node, b ∈ res

lemma closedAt_mono (ns : List NodeData) (res res2 : List Nat) (a : Nat)
    (hsub : res ⊆ res2) (h : closedAt ns res a) : closedAt ns res2 a := by
  intro node hf b hb
  exact hsub (h node hf b hb)

lemma unvisitedCard_mono (ns : List NodeData) (u v : List Nat) (h : u ⊆ v) :
    unvisitedCard ns v ≤ unvisitedCard ns u := by
  apply Finset.card_le_card
  apply Finset.sdiff_subset_sdiff (Finset.Subset.refl _)
  intro x hx
  rw [List.mem_toFinset] at hx ⊢
  exact h hx

lemma unvisitedCard_cons_lt (ns : List NodeData) (used : List Nat) (nid : Nat)
    (hid : nid ∈ ns.map (fun n => n.id)) (hnot : nid ∉ used) :
    unvisitedCard ns (nid :: used) < unvisitedCard ns used := by
  unfold unvisitedCard
  rw [List.toFinset_cons, Finset.sdiff_insert]
  apply Finset.card_erase_lt_of_mem
  rw [Finset.mem_sdiff, List.mem_toFinset, List.mem_toFinset]
  exact ⟨hid, hnot⟩

lemma visitF_closed (ns : List NodeData) :
    ∀ (f : Nat) (used : List Nat) (nid : Nat), unvisitedCard ns used < f →
      nid ∈ visitF ns f used nid ∧
      ∀ a ∈ visitF ns f used nid, a ∉ used →
        closedAt ns (visitF ns f used nid) a := by
  intro f
  induction f with
  | zero => intro used nid h; exact absurd h (Nat.not_lt_zero _)
  | succ f ih =>
    intro used nid h
    by_cases hm : nid ∈ used
    · refine ⟨by simp [visitF, hm], ?_⟩
      intro a ha hnot
      simp only [visitF, if_pos hm] at ha
      exact absurd ha hnot
    · cases hf : findNode ns nid with
      | none =>
        simp only [visitF, if_neg hm, hf]
        refine ⟨List.mem_cons_self .., ?_⟩
        intro a ha hnot node hfind b hb
        rcases List.mem_cons.mp ha with h1 | h1
        · rw [h1, hf] at hfind; cases hfind
        · exact absurd h1 hnot
      | some node =>
        have hids : nid ∈ ns.map (fun n => n.id) := by
          rcases findNode_mem_id ns nid node hf with ⟨hmem, hidv⟩
          exact List.mem_map.mpr ⟨node, hmem, hidv⟩
        have hcard : unvisitedCard ns (nid :: used) < f :=
          lt_of_lt_of_le (unvisitedCard_cons_lt ns used nid hids hm)
            (Nat.lt_succ_iff.mp h)
        have fold : ∀ (ms : List Nat) (u : List Nat), unvisitedCard ns u < f →
            u ⊆ ms.foldl (fun u m => visitF ns f u m) u ∧
            (∀ m ∈ ms, m ∈ ms.foldl (fun u m => visitF ns f u m) u) ∧
            (∀ a ∈ ms.foldl (fun u m => visitF ns f u m) u, a ∉ u →
              closedAt ns (ms.foldl (fun u m => visitF ns f u m) u) a) := by
          intro ms
          induction ms with
          | nil =>
            intro u hc
            refine ⟨List.Subset.refl _, by simp, ?_⟩
            intro a ha hnot
            exact absurd (by simpa using ha) hnot
          | cons m rest ihm =>
            intro u hc
            simp only [List.foldl_cons]
            have hstep := ih u m hc
            have hsub1 : u ⊆ visitF ns f u m := visitF_subset ns f u m
            have hc1 : unvisitedCard ns (visitF ns f u m) < f :=
              lt_of_le_of_lt (unvisitedCard_mono ns u _ hsub1) hc
            have hrest := ihm (visitF ns f u m) hc1
            refine ⟨hsub1.trans hrest.1, ?_, ?_⟩
            · intro m2 hm2
              rcases List.mem_cons.mp hm2 with h1 | h1
              · exact h1 ▸ hrest.1 hstep.1
              · exact hrest.2.1 m2 h1
            · intro a ha hnot
              by_cases hau : a ∈ visitF ns f u m
              · exact closedAt_mono ns _ _ a hrest.1 (hstep.2 a hau hnot)
              · exact hrest.2.2 a ha hau
        simp only [visitF, if_neg hm, hf]
        have hfold := fold (nbrIds node) (nid :: used) hcard
        refine ⟨hfold.1 (List.mem_cons_self ..), ?_⟩
        intro a ha hnot
        by_cases hcase : a ∈ (nid : Nat) :: used
        · rcases List.mem_cons.mp hcase with h1 | h1
          · subst h1
            intro node2 hfind2 b hb
            rw [hf] at hfind2
            cases hfind2
            exact hfold.2.1 b hb
          · exact absurd h1 hnot
        · exact hfold.2.2 a ha hcase

lemma unvisitedCard_lt_len (ns : List NodeData) (u : List Nat) :
    unvisitedCard ns u < ns.length + 1 := by
  apply Nat.lt_succ_of_le
  calc unvisitedCard ns u
      ≤ (ns.map (fun n => n.id)).toFinset.card :=
        Finset.card_le_card (Finset.sdiff_subset)
    _ ≤ (ns.map (fun n => n.id)).length := List.toFinset_card_le _
    _ = ns.length := List.length_map _ _

lemma traverse_fold_spec (ns : List NodeData) (outs : List NodeData) :
    ∀ u : List Nat,
      u ⊆ outs.foldl (fun used o => visitF ns (ns.length + 1) used o.id) u ∧
      (∀ o ∈ outs,
        o.id ∈ outs.foldl (fun used o => visitF ns (ns.length + 1) used o.id) u) ∧
      (∀ a ∈ outs.foldl (fun used o => visitF ns (ns.length + 1) used o.id) u,
        a ∉ u →
        closedAt ns
          (outs.foldl (fun used o => visitF ns (ns.length + 1) used o.id) u) a) ∧
      (∀ x ∈ outs.foldl (fun used o => visitF ns (ns.length + 1) used o.id) u,
        x ∈ u ∨ ∃ o ∈ outs, Relation.ReflTransGen (stepRel ns) o.id x) ∧
      (u.Nodup →
        (outs.foldl (fun used o => visitF ns (ns.length + 1) used o.id) u).Nodup) := by
  induction outs with
  | nil =>
    intro u
    refine ⟨List.Subset.refl _, by simp, ?_, ?_, fun h => by simpa using h⟩
    · intro a ha hnot; exact absurd (by simpa using ha) hnot
    · intro x hx; exact Or.inl (by simpa using hx)
  | cons o rest iho =>
    intro u
    simp only [List.foldl_cons]
    have hclosed := visitF_closed ns (ns.length + 1) u o.id (unvisitedCard_lt_len ns u)
    have hsub1 : u ⊆ visitF ns (ns.length + 1) u o.id :=
      visitF_subset ns (ns.length + 1) u o.id
    have hrest := iho (visitF ns (ns.length + 1) u o.id)
    refine ⟨hsub1.trans hrest.1, ?_, ?_, ?_, ?_⟩
    · intro o2 ho2
      rcases List.mem_cons.mp ho2 with h1 | h1
      · exact h1 ▸ hrest.1 hclosed.1
      · exact hrest.2.1 o2 h1
    · intro a ha hnot
      by_cases hau : a ∈ visitF ns (ns.length + 1) u o.id
      · exact closedAt_mono ns _ _ a hrest.1 (hclosed.2 a hau hnot)
      · exact hrest.2.2.1 a ha hau
    · intro x hx
      rcases hrest.2.2.2.1 x hx with h1 | ⟨o2, ho2, hr⟩
      · rcases visitF_sound ns (ns.length + 1) u o.id x h1 with h2 | h2
        · exact Or.inl h2
        · exact Or.inr ⟨o, List.mem_cons_self .., h2⟩
      · exact Or.inr ⟨o2, List.mem_cons_of_mem _ ho2, hr⟩
    · intro hu
      exact hrest.2.2.2.2 (visitF_nodup ns (ns.length + 1) u o.id hu)

/-- Characterisation of `traverse_from_outputs` via the one-step relation
actually followed by `visit`. -/
lemma mem_traverse_iff_step (t : NTree) (x : Nat) :
    x ∈ traverse_from_outputs t ↔
      ∃ o ∈ get_output_nodes t,
        Relation.ReflTransGen (stepRel t.datas) o.id x := by
  have hspec := traverse_fold_spec t.datas (get_output_nodes t) []
  constructor
  · intro hx
    rcases hspec.2.2.2.1 x hx with h1 | h1
    · simp at h1
    · exact h1
  · rintro ⟨o, ho, hr⟩
    have hstart : o.id ∈ traverse_from_outputs t := hspec.2.1 o ho
    have hclosed : ∀ a ∈ traverse_from_outputs t,
        closedAt t.datas (traverse_from_outputs t) a := by
      intro a ha
      exact hspec.2.2.1 a ha (by simp)
    clear hspec
    induction hr with
    | refl => exact hstart
    | tail h1 h2 ih =>
      rcases h2 with ⟨node, hfind, hb⟩
      exact hclosed _ ih node hfind _ hb

lemma traverse_nodup (t : NTree) : (traverse_from_outputs t).Nodup :=
  (traverse_fold_spec t.datas (get_output_nodes t) []).2.2.2.2 List.nodup_nil

/-- Well-formedness: distinct nodes carry distinct identities. -/
def idsNodup (ns : List NodeData) : Prop := (ns.map (fun n => n.id)).Nodup

/-- Well-formedness: every link endpoint recorded on a socket is the id of
a node of the same tree (links of a Blender tree stay inside the tree). -/
def adjClosed (ns : List NodeData) : Prop :=
  ∀ n ∈ ns, ∀ b ∈ nbrIds n, b ∈ ns.map (fun n => n.id)

/-- Well-formedness: a link is recorded on both of its end sockets — if
`m` appears among `n`'s endpoint ids, then `n` appears among `m`'s. -/
def adjSymm (ns : List NodeData) : Prop :=
  ∀ n ∈ ns, ∀ m ∈ ns, m.id ∈ nbrIds n → n.id ∈ nbrIds m

lemma findNode_of_mem (ns : List NodeData) (hN : idsNodup ns) (n : NodeData)
    (hn : n ∈ ns) : findNode ns n.id = some n := by
  cases hfind : findNode ns n.id with
  | none =>
    exfalso
    have := List.find?_eq_none.mp hfind n hn
    simp at this
  | some m =>
    rcases findNode_mem_id ns n.id m hfind with ⟨hmem, hidv⟩
    have : m = n := List.inj_on_of_nodup_map hN hmem hn (by rw [hidv])
    rw [this]

lemma step_of_linked (ns : List NodeData) (hN : idsNodup ns) (a b : Nat)
    (h : linkedIds ns a b) : stepRel ns a b := by
  rcases h with ⟨n, hn, hida, hb⟩
  exact ⟨n, by rw [← hida]; exact findNode_of_mem ns hN n hn, hb⟩

lemma linked_of_step (ns : List NodeData) (a b : Nat) (h : stepRel ns a b) :
    linkedIds ns a b := by
  rcases h with ⟨n, hfind, hb⟩
  rcases findNode_mem_id ns a n hfind with ⟨hmem, hidv⟩
  exact ⟨n, hmem, hidv, hb⟩

lemma reach_undir_iff (ns : List NodeData) (hN : idsNodup ns)
    (hC : adjClosed ns) (hS : adjSymm ns) (a x : Nat)
    (ha : a ∈ ns.map (fun n => n.id)) :
    Relation.ReflTransGen (stepRel ns) a x ↔
      Relation.ReflTransGen (undirStep ns) a x := by
  constructor
  · intro h
    exact Relation.ReflTransGen.mono
      (fun u v huv => Or.inl (linked_of_step ns u v huv)) h
  · intro h
    have key : ∀ y, Relation.ReflTransGen (undirStep ns) a y →
        y ∈ ns.map (fun n => n.id) ∧ Relation.ReflTransGen (stepRel ns) a y := by
      intro y hy
      induction hy with
      | refl => exact ⟨ha, Relation.ReflTransGen.refl⟩
      | tail h1 h2 ih =>
        rcases h2 with hlink | hlink
        · rcases hlink with ⟨n, hn, hid, hb⟩
          refine ⟨hC n hn _ hb, ih.2.tail (step_of_linked ns hN _ _ ⟨n, hn, hid, hb⟩)⟩
        · rcases hlink with ⟨m, hm, hid, hb⟩
          rcases List.mem_map.mp ih.1 with ⟨ny, hny, hidy⟩
          have hb2 : ny.id ∈ nbrIds m := by rw [hidy]; exact hb
          have hstep : stepRel ns _ _ :=
            step_of_linked ns hN _ _ ⟨ny, hny, hidy, hS m hm ny hny hb2⟩
          exact ⟨List.mem_map.mpr ⟨m, hm, hid⟩, ih.2.tail (hid ▸ hstep)⟩
    exact (key x h).2

/-- C1.  For a well-formed tree (distinct node ids, links internal to the
tree and recorded on both end sockets), `traverse_from_outputs` returns
exactly the ids of the nodes connected — ignoring link direction — to
some output-terminal node; the visited list has no duplicates (each node
is visited at most once); every output-terminal node is visited and,
consequently, never appears in the unused set `all_nodes - used_nodes`. -/
theorem traverse_from_outputs_reachable (t : NTree)
    (hN : idsNodup t.datas) (hC : adjClosed t.datas) (hS : adjSymm t.datas) :
    (∀ x, x ∈ traverse_from_outputs t ↔ connectedToOutput t x) ∧
    (traverse_from_outputs t).Nodup ∧
    (∀ o ∈ get_output_nodes t,
      o.id ∈ traverse_from_outputs t ∧ o ∉ unused_nodes_raw t) := by
  have houtmem : ∀ o ∈ get_output_nodes t, o ∈ t.datas := by
    intro o ho
    exact List.mem_of_mem_filter ho
  refine ⟨?_, traverse_nodup t, ?_⟩
  · intro x
    rw [mem_traverse_iff_step]
    constructor
    · rintro ⟨o, ho, hr⟩
      refine ⟨o, ho, ?_⟩
      rw [← reach_undir_iff t.datas hN hC hS o.id x
        (List.mem_map.mpr ⟨o, houtmem o ho, rfl⟩)]
      exact hr
    · rintro ⟨o, ho, hr⟩
      refine ⟨o, ho, ?_⟩
      rw [reach_undir_iff t.datas hN hC hS o.id x
        (List.mem_map.mpr ⟨o, houtmem o ho, rfl⟩)]
      exact hr
  · intro o ho
    have hmem : o.id ∈ traverse_from_outputs t :=
      (traverse_fold_spec t.datas (get_output_nodes t) []).2.1 o ho
    refine ⟨hmem, ?_⟩
    intro hcontra
    have := List.of_mem_filter hcontra
    simp at this
    exact this hmem

/-- C2.  Under link internality, the used id set of the traversal and the
complement computed at `utils.py` line 124 partition the tree's id set:
their union is the full id set and their intersection is empty. -/
theorem used_unused_partition (t : NTree) (hC : adjClosed t.datas) :
    usedIdSet t ∪ unusedIdSet t = (allIds t).toFinset ∧
    usedIdSet t ∩ unusedIdSet t = ∅ := by
  have hsub : usedIdSet t ⊆ (allIds t).toFinset := by
    intro x hx
    rw [usedIdSet, List.mem_toFinset] at hx
    rcases (mem_traverse_iff_step t x).mp hx with ⟨o, ho, hr⟩
    rw [List.mem_toFinset]
    rcases Relation.ReflTransGen.cases_tail hr with h1 | ⟨c, _, hstep⟩
    · subst h1
      exact List.mem_map.mpr ⟨o, List.mem_of_mem_filter ho, rfl⟩
    · rcases hstep with ⟨node, hfind, hb⟩
      rcases findNode_mem_id t.datas c node hfind with ⟨hmem, _⟩
      exact hC node hmem x hb
  constructor
  · rw [unusedIdSet]
    exact Finset.union_sdiff_of_subset hsub
  · rw [unusedIdSet]
    exact Finset.inter_sdiff_self _ _

/-- C4.  A graph with zero output-terminal nodes: the traversal visits
nothing (the raw used set is empty) and the raw unused set
`all_nodes - used_nodes` is the whole node set — every node of the tree is
unused by the raw engine. -/
theorem no_outputs_all_unused (t : NTree) (h : get_output_nodes t = []) :
    traverse_from_outputs t = [] ∧
    unusedIdSet t = (allIds t).toFinset ∧
    ∀ n ∈ t.datas, n.id ∈ unusedIdSet t := by
  have htrav : traverse_from_outputs t = [] := by
    rw [traverse_from_outputs, h]
    rfl
  refine ⟨htrav, ?_, ?_⟩
  · rw [unusedIdSet, usedIdSet, htrav]
    simp
  · intro n hn
    rw [unusedIdSet, usedIdSet, htrav]
    simp only [List.toFinset_nil, Finset.sdiff_empty, List.mem_toFinset]
    exact List.mem_map.mpr ⟨n, hn, rfl⟩

instance (ns : List NodeData) : Decidable (idsNodup ns) := by
  unfold idsNodup; infer_instance

instance (ns : List NodeData) : Decidable (adjClosed ns) := by
  unfold adjClosed; infer_instance

instance (ns : List NodeData) : Decidable (adjSymm ns) := by
  unfold adjSymm; infer_instance

/-- Shorthand for witness graphs: a node with given id, name, type and
socket endpoint lists, neutral geometry and no payload reference. -/
def mkNode (i : Nat) (nm ty : String) (ins outs : List (List Nat)) : NodeData :=
  { id := i, name := nm, type := ty, bl_idname := "", label := "",
    x := 0, y := 0, width := 100, height := 100,
    inputs := ins, outputs := outs, gtree := none, parent := none }

/-- Witness graph for C1: output node `0` fed by node `1`, plus an
isolated node `2`. -/
def w1tree : NTree := NTree.mk 0 "W1" (NodeEntries.ofList
  [(mkNode 0 "Out" "OUTPUT_MATERIAL" [[1]] [], none),
   (mkNode 1 "Shader" "BSDF" [] [[0]], none),
   (mkNode 2 "Lone" "TEX_NOISE" [] [], none)])

/-- Witness for C1 at `w1tree`: the well-formedness hypotheses hold and
the traversal is exactly the undirected reach of the output terminals. -/
theorem traverse_from_outputs_reachable_witness :
    (idsNodup w1tree.datas ∧ adjClosed w1tree.datas ∧ adjSymm w1tree.datas) ∧
    ((∀ x, x ∈ traverse_from_outputs w1tree ↔ connectedToOutput w1tree x) ∧
      (traverse_from_outputs w1tree).Nodup ∧
      (∀ o ∈ get_output_nodes w1tree,
        o.id ∈ traverse_from_outputs w1tree ∧ o ∉ unused_nodes_raw w1tree)) :=
  ⟨⟨by decide, by decide, by decide⟩,
    traverse_from_outputs_reachable w1tree (by decide) (by decide) (by decide)⟩

/-- Witness graph for C2: same shape as `w1tree`. -/
def w2tree : NTree := NTree.mk 0 "W2" (NodeEntries.ofList
  [(mkNode 0 "Out" "OUTPUT_MATERIAL" [[1]] [], none),
   (mkNode 1 "Shader" "BSDF" [] [[0]], none),
   (mkNode 2 "Lone" "TEX_NOISE" [] [], none)])

/-- Witness for C2 at `w2tree`. -/
theorem used_unused_partition_witness :
    adjClosed w2tree.datas ∧
    (usedIdSet w2tree ∪ unusedIdSet w2tree = (allIds w2tree).toFinset ∧
      usedIdSet w2tree ∩ unusedIdSet w2tree = ∅) :=
  ⟨by decide, used_unused_partition w2tree (by decide)⟩

/-- Witness graph for C4: three nodes linked to each other, none of them
an output terminal. -/
def w4tree : NTree := NTree.mk 0 "W4" (NodeEntries.ofList
  [(mkNode 0 "A" "BSDF" [[1]] [], none),
   (mkNode 1 "B" "MIX" [[2]] [[0]], none),
   (mkNode 2 "C" "TEX_NOISE" [] [[1]], none)])

/-- Witness for C4 at `w4tree`: no output terminals, so the traversal is
empty and all three nodes are unused. -/
theorem no_outputs_all_unused_witness :
    get_output_nodes w4tree = [] ∧
    (traverse_from_outputs w4tree = [] ∧
      unusedIdSet w4tree = (allIds w4tree).toFinset ∧
      ∀ n ∈ w4tree.datas, n.id ∈ unusedIdSet w4tree) :=
  ⟨by decide, no_outputs_all_unused w4tree (by decide)⟩

/-! ## Error behaviour on a null graph (claim C9) -/

/-- Well-formed one-output graph with nothing unused, used to exhibit
that a null graph is indistinguishable from it in the result. -/
def w9tree : NTree := NTree.mk 0 "W9" (NodeEntries.ofList
  [(mkNode 0 "Out" "OUTPUT_MATERIAL" [[1]] [], none),
   (mkNode 1 "Shader" "BSDF" [] [[0]], none)])

/-- C9 counterexample: on a null (`None`) graph both analysis entry
points silently return the empty dictionary — there is no error path in
the code — and the result coincides with that of a perfectly well-formed
graph in which nothing is unused. -/
theorem null_graph_returns_empty_counterexample :
    find_unused_nodes none "" true = [] ∧
    find_unused_nodes_recursive none "" true = [] ∧
    find_unused_nodes none "" true = find_unused_nodes (some w9tree) "" true ∧
    find_unused_nodes_recursive none "" true =
      find_unused_nodes_recursive (some w9tree) "" true := by
  refine ⟨rfl, rfl, ?_, ?_⟩ <;> decide

/-- C9 amended: for every parameter choice, the core analysis functions
given a null graph return the empty result silently (the `if not
node_tree` guards return `{}`), never an error; this matches their
behaviour on well-formed graphs where nothing is found. -/
theorem null_graph_silent_empty (p : String) (s : Bool) :
    find_unused_nodes none p s = [] ∧
    find_unused_nodes_recursive none p s = [] :=
  ⟨rfl, rfl⟩

/-! ## Recursive expansion merges nested results (claim C3) -/

lemma nodeEntriesInd {motive : NodeEntries → Prop}
    (hnil : motive .nil)
    (hgrp : ∀ d sub rest, motive rest → motive (.grp d sub rest))
    (hplain : ∀ d rest, motive rest → motive (.plain d rest)) :
    ∀ es, motive es
  | .nil => hnil
  | .grp d sub rest => hgrp d sub rest (nodeEntriesInd hnil hgrp hplain rest)
  | .plain d rest => hplain d rest (nodeEntriesInd hnil hgrp hplain rest)

lemma dictUpdate_mem_left (d nd : List (NodeData × Record)) (k : NodeData)
    (v : Record) (h : (k, v) ∈ d) (hkey : dictHasKey k nd = false) :
    (k, v) ∈ dictUpdate d nd := by
  apply List.mem_append_left
  have hfind : nd.find? (fun q => q.1 == k) = none := by
    apply List.find?_eq_none.mpr
    intro q hq
    intro hcon
    have : dictHasKey k nd = true := List.any_eq_true.mpr ⟨q, hq, hcon⟩
    rw [this] at hkey
    cases hkey
  refine List.mem_map.mpr ⟨(k, v), h, ?_⟩
  simp only [hfind]

lemma dictUpdate_mem_right (d nd : List (NodeData × Record)) (k : NodeData)
    (v : Record) (hfind : nd.find? (fun q => q.1 == k) = some (k, v)) :
    (k, v) ∈ dictUpdate d nd := by
  by_cases hd : d.any (fun p => p.1 == k) = true
  · rcases List.any_eq_true.mp hd with ⟨p, hp, hpk⟩
    apply List.mem_append_left
    refine List.mem_map.mpr ⟨p, hp, ?_⟩
    have hpk2 : p.1 = k := by simpa using hpk
    rw [hpk2, hfind]
  · apply List.mem_append_right
    refine List.mem_filter.mpr ⟨List.mem_of_find?_eq_some hfind, ?_⟩
    rw [Bool.not_eq_true] at hd
    simp only [hd, Bool.not_false]

/-- Does the payload map of a node entry (with the recursion's nested
containment name) contain the key `k`? -/
def childMapHasKey (k : NodeData) (parent : String) (showA : Bool)
    (pr : NodeData × Option NTree) : Bool :=
  match pr.2 with
  | some sub =>
    dictHasKey k (findUnusedRecTree sub (nestedName parent pr.1.name) showA)
  | none => false

/-- First entry with key `k` in the payload map of a node entry. -/
def childMapFind (k : NodeData) (parent : String) (showA : Bool)
    (pr : NodeData × Option NTree) : Option (NodeData × Record) :=
  match pr.2 with
  | some sub =>
    (findUnusedRecTree sub (nestedName parent pr.1.name) showA).find?
      (fun q => q.1 == k)
  | none => none

/-- An entry `(k, v)` survives a `dict.update` with the payload map of
`pr` when that map either lacks the key `k` or maps it to exactly `v`. -/
def keyStable (k : NodeData) (v : Record) (parent : String) (showA : Bool)
    (pr : NodeData × Option NTree) : Prop :=
  childMapHasKey k parent showA pr = false ∨
    childMapFind k parent showA pr = some (k, v)

lemma findUnusedRecEntries_pres (parent : String) (showA : Bool)
    (base : List (NodeData × Record)) (k : NodeData) (v : Record) :
    ∀ (es : NodeEntries) (acc : List (NodeData × Record)), (k, v) ∈ acc →
    (∀ pr ∈ es.toList, keyStable k v parent showA pr) →
    (k, v) ∈ findUnusedRecEntries es parent showA base acc := by
  intro es
  induction es using nodeEntriesInd with
  | hnil => intro acc hacc _; exact hacc
  | hplain d rest ih =>
    intro acc hacc hstable
    apply ih acc hacc
    intro pr hpr
    exact hstable pr (List.mem_cons_of_mem _ hpr)
  | hgrp d sub rest ih =>
    intro acc hacc hstable
    show (k, v) ∈ findUnusedRecEntries rest parent showA base _
    have hhead := hstable (d, some sub) (List.mem_cons_self ..)
    apply ih
    · by_cases hcond : (d.type == "GROUP" && dictHasKey d base) = true
      · simp only [hcond, if_true]
        rcases hhead with h1 | h1
        · exact dictUpdate_mem_left _ _ k v hacc (by simpa [childMapHasKey] using h1)
        · exact dictUpdate_mem_right _ _ k v (by simpa [childMapFind] using h1)
      · rw [Bool.not_eq_true] at hcond
        simp only [hcond, if_false]
        exact hacc
    · intro pr hpr
      exact hstable pr (List.mem_cons_of_mem _ hpr)

lemma findUnusedRecEntries_adds (parent : String) (showA : Bool)
    (base : List (NodeData × Record)) (g : NodeData) (P : NTree)
    (u : NodeData) (recU : Record) (hgtype : g.type = "GROUP")
    (hgbase : dictHasKey g base = true) :
    ∀ (es : NodeEntries) (acc : List (NodeData × Record)),
    (g, some P) ∈ es.toList →
    (∀ pr ∈ es.toList, pr.1 ≠ g → childMapHasKey u parent showA pr = false) →
    (∀ pr ∈ es.toList, pr.1 = g → childMapFind u parent showA pr = some (u, recU)) →
    (u, recU) ∈ findUnusedRecEntries es parent showA base acc := by
  intro es
  induction es using nodeEntriesInd with
  | hnil =>
    intro acc hmem _ _
    simp [NodeEntries.toList] at hmem
  | hplain d rest ih =>
    intro acc hmem hB hD
    have hmem2 : (g, some P) ∈ rest.toList := by
      rcases List.mem_cons.mp hmem with h1 | h1
      · cases h1
      · exact h1
    show (u, recU) ∈ findUnusedRecEntries rest parent showA base acc
    exact ih acc hmem2 (fun pr hpr => hB pr (List.mem_cons_of_mem _ hpr))
      (fun pr hpr => hD pr (List.mem_cons_of_mem _ hpr))
  | hgrp d sub rest ih =>
    intro acc hmem hB hD
    show (u, recU) ∈ findUnusedRecEntries rest parent showA base _
    rcases List.mem_cons.mp hmem with h1 | h1
    · have hd : d = g := (congrArg Prod.fst h1).symm
      have hcond : (d.type == "GROUP" && dictHasKey d base) = true := by
        rw [hd]
        simp [hgtype, hgbase]
      simp only [hcond, if_true]
      have hfind := hD (d, some sub) (List.mem_cons_self ..) hd
      simp only [childMapFind] at hfind
      apply findUnusedRecEntries_pres
      · exact dictUpdate_mem_right _ _ u recU hfind
      · intro pr hpr
        by_cases hg2 : pr.1 = g
        · exact Or.inr (hD pr (List.mem_cons_of_mem _ hpr) hg2)
        · exact Or.inl (hB pr (List.mem_cons_of_mem _ hpr) hg2)
    · exact ih _ h1 (fun pr hpr => hB pr (List.mem_cons_of_mem _ hpr))
        (fun pr hpr => hD pr (List.mem_cons_of_mem _ hpr))

lemma find_unused_record_fields (t : NTree) (p : String) (s : Bool) :
    ∀ pr ∈ find_unused_nodes (some t) p s,
      pr.2.parent_tree = (if p = "" then t.name else p) ∧
      pr.2.type = pr.1.type ∧ pr.2.materials = [] ∧
      pr.2.connected_to_output = [] := by
  intro pr hpr
  simp only [find_unused_nodes] at hpr
  by_cases hout : (get_output_nodes t).isEmpty
  · simp [hout] at hpr
  · simp only [hout, Bool.false_eq_true, if_false] at hpr
    rcases List.mem_map.mp hpr with ⟨n, hn, heq⟩
    rw [← heq]
    by_cases hp : p = "" <;> simp [hp]

lemma nestedName_ne_empty (parent nm : String) (h : parent = "" → nm ≠ "") :
    nestedName parent nm ≠ "" := by
  unfold nestedName
  by_cases hp : parent = ""
  · simpa [hp] using h hp
  · simp only [hp, beq_iff_eq, if_false]
    intro hcon
    have hlen := congrArg String.length hcon
    rw [String.length_append, String.length_append] at hlen
    have hone : (".").length = 1 := rfl
    have hz : ("" : String).length = 0 := rfl
    rw [hone, hz] at hlen
    apply hp
    have hplen : parent.length = 0 := by omega
    cases parent with
    | mk pd =>
      simp only [String.length] at hplen
      rw [List.length_eq_zero] at hplen
      rw [hplen]

lemma findUnusedRec_eq (t : NTree) (p : String) (s : Bool) :
    find_unused_nodes_recursive (some t) p s =
      findUnusedRecEntries t.entries p s (find_unused_nodes (some t) p s)
        (find_unused_nodes (some t) p s) := by
  obtain ⟨tid, nm, es⟩ := t
  rfl

/-- C3.  An unused GROUP node `g` of `T` with payload `P`, where `P`'s own
analysis (under the nested containment name) finds the unused node `u`:
the merged recursive result contains `g` with its record stamped with the
outer containment path, and `u` with its record stamped with
`parent ++ "." ++ g.name` (just `g.name` when the outer path is empty).
The `childMap` hypotheses say that `g`'s key does not occur in any child
map, and `u`'s key occurs exactly with record `recU` and only in maps of
entries for `g` — which is how distinct node identities across distinct
trees behave. -/
theorem find_unused_recursive_merges_nested
    (T P : NTree) (g u : NodeData) (recG recU : Record)
    (parent : String) (showA : Bool)
    (hpair : (g, some P) ∈ T.nodes)
    (hgtype : g.type = "GROUP")
    (hgkey : (g, recG) ∈ find_unused_nodes (some T) parent showA)
    (hdirect : (u, recU) ∈ find_unused_nodes (some P) (nestedName parent g.name) showA)
    (hA : ∀ pr ∈ T.nodes, childMapHasKey g parent showA pr = false)
    (hB : ∀ pr ∈ T.nodes, pr.1 ≠ g → childMapHasKey u parent showA pr = false)
    (hD : ∀ pr ∈ T.nodes, pr.1 = g → childMapFind u parent showA pr = some (u, recU))
    (hname : parent = "" → g.name ≠ "") :
    (g, recG) ∈ find_unused_nodes_recursive (some T) parent showA ∧
    (u, recU) ∈ find_unused_nodes_recursive (some T) parent showA ∧
    recG.parent_tree = (if parent = "" then T.name else parent) ∧
    recU.parent_tree = (if parent = "" then g.name else parent ++ "." ++ g.name) := by
  have hgbase : dictHasKey g (find_unused_nodes (some T) parent showA) = true :=
    List.any_eq_true.mpr ⟨(g, recG), hgkey, by simp⟩
  refine ⟨?_, ?_, ?_, ?_⟩
  · rw [findUnusedRec_eq]
    apply findUnusedRecEntries_pres _ _ _ _ _ _ _ hgkey
    intro pr hpr
    exact Or.inl (hA pr hpr)
  · rw [findUnusedRec_eq]
    exact findUnusedRecEntries_adds parent showA _ g P u recU hgtype hgbase
      T.entries _ hpair hB hD
  · exact (find_unused_record_fields T parent showA (g, recG) hgkey).1
  · have hfield := (find_unused_record_fields P (nestedName parent g.name) showA
      (u, recU) hdirect).1
    have hne : nestedName parent g.name ≠ "" := nestedName_ne_empty _ _ hname
    rw [if_neg hne] at hfield
    rw [hfield]
    unfold nestedName
    by_cases hp : parent = "" <;> simp [hp]

/-- Payload graph for the C3 witness: a group output fed by one node,
plus the unused node `12`. -/
def c3P : NTree := NTree.mk 7 "P" (NodeEntries.ofList
  [(mkNode 10 "GOut" "NodeGroupOutput" [[11]] [], none),
   (mkNode 11 "Inner" "BSDF" [] [[10]], none),
   (mkNode 12 "Leftover" "TEX_NOISE" [] [], none)])

/-- Unused group-instance node of the C3 witness. -/
def c3g : NodeData :=
  { mkNode 2 "G" "GROUP" [] [] with gtree := some 7 }

/-- Top tree of the C3 witness: an output fed by one node, plus the
unused group instance `c3g` whose payload is `c3P`. -/
def c3T : NTree := NTree.mk 0 "T" (NodeEntries.ofList
  [(mkNode 0 "Out" "OUTPUT_MATERIAL" [[1]] [], none),
   (mkNode 1 "Shader" "BSDF" [] [[0]], none),
   (c3g, some c3P)])

/-- Witness for C3 at the concrete two-level graph `c3T`/`c3P`. -/
theorem find_unused_recursive_merges_nested_witness :
    ((c3g, some c3P) ∈ c3T.nodes ∧
      c3g.type = "GROUP" ∧
      (c3g, { type := "GROUP", materials := [], connected_to_output := [],
              parent_tree := "T" }) ∈ find_unused_nodes (some c3T) "" true ∧
      (mkNode 12 "Leftover" "TEX_NOISE" [] [],
        { type := "TEX_NOISE", materials := [], connected_to_output := [],
          parent_tree := "G" }) ∈
        find_unused_nodes (some c3P) (nestedName "" c3g.name) true ∧
      (∀ pr ∈ c3T.nodes, childMapHasKey c3g "" true pr = false) ∧
      (∀ pr ∈ c3T.nodes, pr.1 ≠ c3g →
        childMapHasKey (mkNode 12 "Leftover" "TEX_NOISE" [] []) "" true pr = false) ∧
      (∀ pr ∈ c3T.nodes, pr.1 = c3g →
        childMapFind (mkNode 12 "Leftover" "TEX_NOISE" [] []) "" true pr =
          some (mkNode 12 "Leftover" "TEX_NOISE" [] [],
            { type := "TEX_NOISE", materials := [], connected_to_output := [],
              parent_tree := "G" }))) ∧
    ((c3g, { type := "GROUP", materials := [], connected_to_output := [],
             parent_tree := "T" }) ∈ find_unused_nodes_recursive (some c3T) "" true ∧
      (mkNode 12 "Leftover" "TEX_NOISE" [] [],
        { type := "TEX_NOISE", materials := [], connected_to_output := [],
          parent_tree := "G" }) ∈ find_unused_nodes_recursive (some c3T) "" true ∧
      ({ type := "GROUP", materials := [], connected_to_output := [],
         parent_tree := "T" } : Record).parent_tree =
        (if ("" : String) = "" then c3T.name else "") ∧
      ({ type := "TEX_NOISE", materials := [], connected_to_output := [],
         parent_tree := "G" } : Record).parent_tree =
        (if ("" : String) = "" then c3g.name else "" ++ "." ++ c3g.name)) :=
  ⟨⟨by simp [c3T, NTree.nodes, NTree.entries, NodeEntries.ofList, NodeEntries.toList],
    by decide, by decide, by decide, by decide, by decide, by decide⟩,
   find_unused_recursive_merges_nested c3T c3P c3g
     (mkNode 12 "Leftover" "TEX_NOISE" [] [])
     { type := "GROUP", materials := [], connected_to_output := [],
       parent_tree := "T" }
     { type := "TEX_NOISE", materials := [], connected_to_output := [],
       parent_tree := "G" }
     "" true
     (by simp [c3T, NTree.nodes, NTree.entries, NodeEntries.ofList, NodeEntries.toList])
     (by decide) (by decide) (by decide) (by decide) (by decide) (by decide)
     (by decide)⟩

/-! ## Delete-unused on nested unused nodes (claim C6) -/

/-- Payload graph of the C6 failing input: its own analysis finds the
unused node `12`. -/
def c6P : NTree := NTree.mk 7 "P" (NodeEntries.ofList
  [(mkNode 10 "GOut" "NodeGroupOutput" [[11]] [], none),
   (mkNode 11 "Inner" "BSDF" [] [[10]], none),
   (mkNode 12 "Leftover" "TEX_NOISE" [] [], none)])

/-- Top tree of the C6 failing input: an output fed by one node and an
unused group instance whose payload is `c6P`. -/
def c6T : NTree := NTree.mk 0 "T" (NodeEntries.ofList
  [(mkNode 0 "Out" "OUTPUT_MATERIAL" [[1]] [], none),
   (mkNode 1 "Shader" "BSDF" [] [[0]], none),
   ({ mkNode 2 "G" "GROUP" [] [] with gtree := some 7 }, some c6P)])

/-- C6 evaluated at the failing input: the recursive analysis returns two
unused nodes (the group instance `2` of the top tree and the node `12`
owned by the payload graph), but the operator hands both to the top
tree's remove; removing `12` from the top tree fails, the exception
handler reports CANCELLED, and the final state has removed only node `2`
— node `12` is still present in its owning graph `c6P`, and the operator
ends in an error state rather than removing every node of the map from
its owning graph. -/
theorem executeDeleteUnused_nested_cancelled :
    (find_unused_nodes_recursive (some c6T) "" true).map (fun pr => pr.1.id) =
      [2, 12] ∧
    executeDeleteUnused c6T =
      ("CANCELLED", NTree.mk 0 "T" (NodeEntries.ofList
        [(mkNode 0 "Out" "OUTPUT_MATERIAL" [[1]] [], none),
         (mkNode 1 "Shader" "BSDF" [] [[0]], none)])) ∧
    (mkNode 12 "Leftover" "TEX_NOISE" [] []) ∈ c6P.datas :=
  ⟨by decide, rfl, by decide⟩

/-! ## Usage aggregation (claims C5, C10) -/

/-- Unused-definition record key for the C5 counterexample. -/
def c5gk : NodeData := { mkNode 100 "GDef" "GROUP" [] [] with gtree := some 7 }

/-- Payload tree shared by the instances of the C5 counterexample. -/
def c5pay : NTree := NTree.mk 7 "GDefTree" (NodeEntries.ofList [])

/-- First instance in the material: one output socket, unlinked. -/
def c5inst1 : NodeData := { mkNode 20 "G1" "GROUP" [] [[]] with gtree := some 7 }

/-- Second instance in the material: one output socket, linked. -/
def c5inst2 : NodeData := { mkNode 21 "G2" "GROUP" [] [[5]] with gtree := some 7 }

/-- Material tree of the C5 counterexample: two instances of the same
payload, the unlinked one first. -/
def c5mtree : NTree := NTree.mk 1 "MT" (NodeEntries.ofList
  [(c5inst1, some c5pay), (c5inst2, some c5pay)])

/-- C5 counterexample: the material contains an instance (`c5inst2`) of
the unused group with a linked output socket, yet the aggregation leaves
the record's connected-to-output list empty — the check ran only for the
first instance, which had already added the material's name. -/
theorem collect_group_usage_counterexample :
    collect_group_usage
        [(c5gk, { type := "GROUP", materials := [], connected_to_output := [],
                  parent_tree := "NT" })]
        [{ name := "M", use_nodes := true, node_tree := some c5mtree }] =
      [(c5gk, { type := "GROUP", materials := ["M"], connected_to_output := [],
                parent_tree := "NT" })] ∧
    c5inst2 ∈ c5mtree.datas ∧
    c5inst2.type = "GROUP" ∧
    c5inst2.gtree = c5gk.gtree ∧
    is_group_connected_to_output (some c5inst2) (some c5mtree) = true := by
  refine ⟨by decide, by decide, by decide, by decide, by decide⟩

/-- A node of a material tree triggers the per-record update for the key
`gk`: a GROUP node with a payload reference equal to `gk`'s. -/
def c5Matches (gk n : NodeData) : Bool :=
  n.type == "GROUP" && n.gtree.isSome && gk.gtree == n.gtree

/-- Record transformation applied by the matching instance `node` of the
material `mat` (the composite of the two appends of
`utils.py` lines 161-172 for a single record). -/
def c5Step (mat : String) (mtree : NTree) (node : NodeData) (r : Record) :
    Record :=
  if r.materials.contains mat then r
  else
    let r1 := { r with materials := r.materials ++ [mat] }
    if !(r1.connected_to_output.contains mat) &&
        is_group_connected_to_output (some node) (some mtree) then
      { r1 with connected_to_output := r1.connected_to_output ++ [mat] }
    else r1

lemma cguProcessNode_no_match (mat : String) (mtree : NTree) (gk : NodeData)
    (r : Record) (node : NodeData) (h : c5Matches gk node = false) :
    cguProcessNode mat mtree [(gk, r)] node = [(gk, r)] := by
  unfold cguProcessNode
  by_cases houter : (node.type == "GROUP" && node.gtree.isSome) = true
  · simp only [houter, if_true, List.map_cons, List.map_nil]
    have hmismatch : (gk.gtree == node.gtree) = false := by
      unfold c5Matches at h
      rcases Bool.and_eq_false_iff.mp h with h1 | h1
      · rw [Bool.and_eq_true] at houter
        rcases Bool.and_eq_false_iff.mp h1 with h2 | h2
        · rw [houter.1] at h2; cases h2
        · rw [houter.2] at h2; cases h2
      · exact h1
    unfold cguUpdateEntry
    simp [hmismatch]
  · rw [Bool.not_eq_true] at houter
    simp [houter]

lemma cguProcessNode_match (mat : String) (mtree : NTree) (gk : NodeData)
    (r : Record) (node : NodeData) (hgk : gk.type = "GROUP")
    (h : c5Matches gk node = true) :
    cguProcessNode mat mtree [(gk, r)] node = [(gk, c5Step mat mtree node r)] := by
  unfold c5Matches at h
  rw [Bool.and_eq_true, Bool.and_eq_true] at h
  unfold cguProcessNode
  simp only [h.1.1, h.1.2, Bool.and_self, if_true, List.map_cons, List.map_nil]
  unfold cguUpdateEntry c5Step
  simp only [hgk, h.2]
  by_cases hcont : mat ∈ r.materials
  · simp [hcont]
  · by_cases hconn : mat ∉ r.connected_to_output ∧
        is_group_connected_to_output (some node) (some mtree) = true
    · simp [hcont, hconn]
    · simp [hcont, hconn]

lemma cgu_fold_no_match (mat : String) (mtree : NTree) (gk : NodeData) :
    ∀ (l : List NodeData) (r : Record),
      l.filter (fun n => c5Matches gk n) = [] →
      l.foldl (cguProcessNode mat mtree) [(gk, r)] = [(gk, r)] := by
  intro l
  induction l with
  | nil => intro r _; rfl
  | cons n rest ih =>
    intro r hfilter
    rw [List.filter_cons] at hfilter
    by_cases hn : c5Matches gk n = true
    · simp [hn] at hfilter
    · rw [Bool.not_eq_true] at hn
      simp only [hn, Bool.false_eq_true, if_false] at hfilter
      simp only [List.foldl_cons, cguProcessNode_no_match mat mtree gk r n hn]
      exact ih r hfilter

lemma cgu_fold_single_match (mat : String) (mtree : NTree) (gk : NodeData)
    (hgk : gk.type = "GROUP") :
    ∀ (l : List NodeData) (r : Record) (a : NodeData),
      l.filter (fun n => c5Matches gk n) = [a] →
      l.foldl (cguProcessNode mat mtree) [(gk, r)] =
        [(gk, c5Step mat mtree a r)] := by
  intro l
  induction l with
  | nil => intro r a h; simp at h
  | cons n rest ih =>
    intro r a hfilter
    rw [List.filter_cons] at hfilter
    by_cases hn : c5Matches gk n = true
    · simp only [hn, if_true] at hfilter
      have hna : n = a := (List.cons_eq_cons.mp hfilter).1
      have hrest : rest.filter (fun n => c5Matches gk n) = [] :=
        (List.cons_eq_cons.mp hfilter).2
      subst hna
      simp only [List.foldl_cons, cguProcessNode_match mat mtree gk r n hgk hn]
      exact cgu_fold_no_match mat mtree gk rest _ hrest
    · rw [Bool.not_eq_true] at hn
      simp only [hn, Bool.false_eq_true, if_false] at hfilter
      simp only [List.foldl_cons, cguProcessNode_no_match mat mtree gk r n hn]
      exact ih r a hfilter

/-- C5 amended.  The connected-to-output check runs only for the single
instance that first adds a top-level graph's name to a record's materials
list.  When each top-level graph contains exactly one instance matching
the unused group record — as in the claim's A/B scenario — the claim's
behaviour holds: for graphs A (instance unlinked) and B (instance
linked), the record ends with materials `[A, B]` and connected-to-output
exactly `[B]`. -/
theorem collect_group_usage_single_instance
    (gk a b : NodeData) (r0 : Record) (tA tB : NTree) (nmA nmB : String)
    (hgk : gk.type = "GROUP")
    (hr0m : r0.materials = []) (hr0c : r0.connected_to_output = [])
    (hA1 : tA.datas.filter (fun n => c5Matches gk n) = [a])
    (hB1 : tB.datas.filter (fun n => c5Matches gk n) = [b])
    (hconnA : is_group_connected_to_output (some a) (some tA) = false)
    (hconnB : is_group_connected_to_output (some b) (some tB) = true)
    (hne : nmA ≠ nmB) :
    collect_group_usage [(gk, r0)]
        [{ name := nmA, use_nodes := true, node_tree := some tA },
         { name := nmB, use_nodes := true, node_tree := some tB }] =
      [(gk,
        { r0 with materials := [nmA, nmB], connected_to_output := [nmB] })] := by
  have hne2 : nmB ≠ nmA := Ne.symm hne
  have hs1 : c5Step nmA tA a r0 = { r0 with materials := [nmA] } := by
    unfold c5Step
    rw [hr0m, hr0c]
    simp [hconnA]
  have hs2 : c5Step nmB tB b { r0 with materials := [nmA] } =
      { r0 with materials := [nmA, nmB], connected_to_output := [nmB] } := by
    unfold c5Step
    simp [hne2, hconnB, hr0c]
  have step1 : cguProcessMaterial [(gk, r0)]
      { name := nmA, use_nodes := true, node_tree := some tA } =
      [(gk, { r0 with materials := [nmA] })] := by
    have hdef : cguProcessMaterial [(gk, r0)]
        { name := nmA, use_nodes := true, node_tree := some tA } =
        tA.datas.foldl (cguProcessNode nmA tA) [(gk, r0)] := rfl
    rw [hdef, cgu_fold_single_match nmA tA gk hgk tA.datas r0 a hA1, hs1]
  have step2 : cguProcessMaterial [(gk, { r0 with materials := [nmA] })]
      { name := nmB, use_nodes := true, node_tree := some tB } =
      [(gk,
        { r0 with materials := [nmA, nmB], connected_to_output := [nmB] })] := by
    have hdef : cguProcessMaterial [(gk, { r0 with materials := [nmA] })]
        { name := nmB, use_nodes := true, node_tree := some tB } =
        tB.datas.foldl (cguProcessNode nmB tB)
          [(gk, { r0 with materials := [nmA] })] := rfl
    rw [hdef, cgu_fold_single_match nmB tB gk hgk tB.datas _ b hB1, hs2]
  have hunfold : collect_group_usage [(gk, r0)]
      [{ name := nmA, use_nodes := true, node_tree := some tA },
       { name := nmB, use_nodes := true, node_tree := some tB }] =
      cguProcessMaterial (cguProcessMaterial [(gk, r0)]
          { name := nmA, use_nodes := true, node_tree := some tA })
        { name := nmB, use_nodes := true, node_tree := some tB } := rfl
  rw [hunfold, step1, step2]

/-- Material tree A of the C5 witness: one unlinked instance. -/
def c5wtA : NTree := NTree.mk 2 "MTA" (NodeEntries.ofList
  [({ mkNode 30 "GA" "GROUP" [] [[]] with gtree := some 7 }, some c5pay),
   (mkNode 31 "Fill" "BSDF" [] [], none)])

/-- Material tree B of the C5 witness: one linked instance. -/
def c5wtB : NTree := NTree.mk 3 "MTB" (NodeEntries.ofList
  [({ mkNode 40 "GB" "GROUP" [] [[9]] with gtree := some 7 }, some c5pay)])

/-- Witness for the amended C5 at concrete materials A and B. -/
theorem collect_group_usage_single_instance_witness :
    (c5gk.type = "GROUP" ∧
      ({ type := "GROUP", materials := [], connected_to_output := [],
         parent_tree := "NT" } : Record).materials = [] ∧
      ({ type := "GROUP", materials := [], connected_to_output := [],
         parent_tree := "NT" } : Record).connected_to_output = [] ∧
      c5wtA.datas.filter (fun n => c5Matches c5gk n) =
        [{ mkNode 30 "GA" "GROUP" [] [[]] with gtree := some 7 }] ∧
      c5wtB.datas.filter (fun n => c5Matches c5gk n) =
        [{ mkNode 40 "GB" "GROUP" [] [[9]] with gtree := some 7 }] ∧
      is_group_connected_to_output
        (some { mkNode 30 "GA" "GROUP" [] [[]] with gtree := some 7 })
        (some c5wtA) = false ∧
      is_group_connected_to_output
        (some { mkNode 40 "GB" "GROUP" [] [[9]] with gtree := some 7 })
        (some c5wtB) = true ∧
      ("A" : String) ≠ "B") ∧
    collect_group_usage
        [(c5gk, { type := "GROUP", materials := [], connected_to_output := [],
                  parent_tree := "NT" })]
        [{ name := "A", use_nodes := true, node_tree := some c5wtA },
         { name := "B", use_nodes := true, node_tree := some c5wtB }] =
      [(c5gk, { type := "GROUP", materials := ["A", "B"],
                connected_to_output := ["B"], parent_tree := "NT" })] :=
  ⟨⟨by decide, rfl, rfl, by decide, by decide, by decide, by decide, by decide⟩,
   collect_group_usage_single_instance c5gk
     { mkNode 30 "GA" "GROUP" [] [[]] with gtree := some 7 }
     { mkNode 40 "GB" "GROUP" [] [[9]] with gtree := some 7 }
     { type := "GROUP", materials := [], connected_to_output := [],
       parent_tree := "NT" }
     c5wtA c5wtB "A" "B"
     (by decide) rfl rfl (by decide) (by decide) (by decide) (by decide)
     (by decide)⟩

/-- Key, type and containment-path projection of a dictionary — the data
`collect_group_usage` must leave untouched. -/
def cguShape (d : List (NodeData × Record)) : List (NodeData × String × String) :=
  d.map (fun pr => (pr.1, pr.2.type, pr.2.parent_tree))

/-- Per-record invariant: both name lists are duplicate-free and the
connected-to-output list is a subset of the materials list. -/
def recordInv (r : Record) : Prop :=
  r.materials.Nodup ∧ r.connected_to_output.Nodup ∧
    ∀ m ∈ r.connected_to_output, m ∈ r.materials

/-- Dictionary-wide invariant. -/
def dictInv (d : List (NodeData × Record)) : Prop := ∀ pr ∈ d, recordInv pr.2

instance (r : Record) : Decidable (recordInv r) := by
  unfold recordInv; infer_instance

instance (d : List (NodeData × Record)) : Decidable (dictInv d) := by
  unfold dictInv; infer_instance

lemma foldl_proj_eq {α β γ : Type} (f : β → α → β) (proj : β → γ)
    (h : ∀ acc x, proj (f acc x) = proj acc) :
    ∀ (l : List α) (acc : β), proj (l.foldl f acc) = proj acc := by
  intro l
  induction l with
  | nil => intro acc; rfl
  | cons x rest ih => intro acc; rw [List.foldl_cons, ih, h]

lemma foldl_pred {α β : Type} (f : β → α → β) (Q : β → Prop)
    (h : ∀ acc x, Q acc → Q (f acc x)) :
    ∀ (l : List α) (acc : β), Q acc → Q (l.foldl f acc) := by
  intro l
  induction l with
  | nil => intro acc hq; exact hq
  | cons x rest ih => intro acc hq; exact ih _ (h acc x hq)

lemma cguUpdateEntry_shape (mat : String) (node : NodeData) (mtree : NTree)
    (pr : NodeData × Record) :
    (cguUpdateEntry mat node mtree pr).1 = pr.1 ∧
    (cguUpdateEntry mat node mtree pr).2.type = pr.2.type ∧
    (cguUpdateEntry mat node mtree pr).2.parent_tree = pr.2.parent_tree := by
  unfold cguUpdateEntry
  dsimp only
  split
  · split
    · exact ⟨rfl, rfl, rfl⟩
    · exact ⟨rfl, rfl, rfl⟩
  · exact ⟨rfl, rfl, rfl⟩

lemma cguUpdateEntry_recordInv (mat : String) (node : NodeData) (mtree : NTree)
    (pr : NodeData × Record) (h : recordInv pr.2) :
    recordInv (cguUpdateEntry mat node mtree pr).2 := by
  rcases h with ⟨hm, hc, hsub⟩
  simp only [cguUpdateEntry]
  by_cases h1 : (pr.1.type == "GROUP" && pr.1.gtree == node.gtree &&
      !(pr.2.materials.contains mat)) = true
  · have hmat : mat ∉ pr.2.materials := by
      have h1c := h1
      rw [Bool.and_eq_true] at h1c
      simpa using h1c.2
    rw [if_pos h1]
    by_cases h2 : (!(pr.2.connected_to_output.contains mat) &&
        is_group_connected_to_output (some node) (some mtree)) = true
    · have hcon : mat ∉ pr.2.connected_to_output := by
        have h2c := h2
        rw [Bool.and_eq_true] at h2c
        simpa using h2c.1
      rw [if_pos h2]
      refine ⟨?_, ?_, ?_⟩
      · simp [List.nodup_append, hm, hmat]
      · simp [List.nodup_append, hc, hcon]
      · intro m hmem
        rcases List.mem_append.mp hmem with h4 | h4
        · exact List.mem_append_left _ (hsub m h4)
        · rw [List.mem_singleton] at h4
          subst h4
          exact List.mem_append_right _ (List.mem_singleton_self _)
    · rw [if_neg h2]
      refine ⟨?_, hc, ?_⟩
      · simp [List.nodup_append, hm, hmat]
      · intro m hmem
        exact List.mem_append_left _ (hsub m hmem)
  · rw [if_neg h1]
    exact ⟨hm, hc, hsub⟩

lemma cguProcessNode_shape (mat : String) (mtree : NTree)
    (dict : List (NodeData × Record)) (node : NodeData) :
    cguShape (cguProcessNode mat mtree dict node) = cguShape dict := by
  unfold cguProcessNode
  by_cases houter : (node.type == "GROUP" && node.gtree.isSome) = true
  · rw [if_pos houter]
    unfold cguShape
    rw [List.map_map]
    apply List.map_congr_left
    intro pr _
    rcases cguUpdateEntry_shape mat node mtree pr with ⟨h1, h2, h3⟩
    simp [Function.comp, h1, h2, h3]
  · rw [if_neg houter]

lemma cguProcessNode_inv (mat : String) (mtree : NTree)
    (dict : List (NodeData × Record)) (node : NodeData) (h : dictInv dict) :
    dictInv (cguProcessNode mat mtree dict node) := by
  unfold cguProcessNode
  by_cases houter : (node.type == "GROUP" && node.gtree.isSome) = true
  · rw [if_pos houter]
    intro pr hpr
    rcases List.mem_map.mp hpr with ⟨pr0, hpr0, heq⟩
    rw [← heq]
    exact cguUpdateEntry_recordInv mat node mtree pr0 (h pr0 hpr0)
  · rw [if_neg houter]
    exact h

lemma cguProcessMaterial_shape (dict : List (NodeData × Record))
    (material : Material) :
    cguShape (cguProcessMaterial dict material) = cguShape dict := by
  obtain ⟨nm, un, nt⟩ := material
  unfold cguProcessMaterial
  cases un with
  | false => rfl
  | true =>
    cases nt with
    | none => rfl
    | some mtree =>
      exact foldl_proj_eq (cguProcessNode nm mtree) cguShape
        (cguProcessNode_shape nm mtree) mtree.datas dict

lemma cguProcessMaterial_inv (dict : List (NodeData × Record))
    (material : Material) (h : dictInv dict) :
    dictInv (cguProcessMaterial dict material) := by
  obtain ⟨nm, un, nt⟩ := material
  unfold cguProcessMaterial
  cases un with
  | false => exact h
  | true =>
    cases nt with
    | none => exact h
    | some mtree =>
      exact foldl_pred (cguProcessNode nm mtree) dictInv
        (cguProcessNode_inv nm mtree) mtree.datas dict h

/-- C10 amended.  `collect_group_usage` only mutates records in place: for
every input it adds no entries, removes none, and leaves every record's
key, type and containment path unchanged (the shape projection is
preserved unconditionally), and it preserves the record invariant — when
every input record has duplicate-free lists with connected-to-output a
subset of materials (as the records freshly produced by
`find_unused_nodes`, with both lists empty, do), the same holds of every
output record. -/
theorem collect_group_usage_inplace_invariant
    (dict : List (NodeData × Record)) (materials : List Material) :
    cguShape (collect_group_usage dict materials) = cguShape dict ∧
    (dictInv dict → dictInv (collect_group_usage dict materials)) := by
  constructor
  · exact foldl_proj_eq cguProcessMaterial cguShape
      (fun acc m => cguProcessMaterial_shape acc m) materials dict
  · intro hinv
    exact foldl_pred cguProcessMaterial dictInv
      (fun acc m => cguProcessMaterial_inv acc m) materials dict hinv

/-- Record key used by the C10 theorems. -/
def c10k : NodeData := { mkNode 50 "KDef" "GROUP" [] [] with gtree := some 7 }

/-- Witness for the amended C10: one well-formed record, one material
with a linked matching instance; the invariant hypothesis of the
implication is discharged concretely. -/
theorem collect_group_usage_inplace_invariant_witness :
    dictInv [(c10k, { type := "GROUP", materials := [], connected_to_output := [],
                      parent_tree := "NT" })] ∧
    (cguShape (collect_group_usage
        [(c10k, { type := "GROUP", materials := [], connected_to_output := [],
                  parent_tree := "NT" })]
        [{ name := "A", use_nodes := true, node_tree := some c5wtB }]) =
      cguShape [(c10k, { type := "GROUP", materials := [],
                         connected_to_output := [], parent_tree := "NT" })] ∧
      dictInv (collect_group_usage
        [(c10k, { type := "GROUP", materials := [], connected_to_output := [],
                  parent_tree := "NT" })]
        [{ name := "A", use_nodes := true, node_tree := some c5wtB }])) :=
  ⟨by decide,
   ⟨(collect_group_usage_inplace_invariant _ _).1,
    (collect_group_usage_inplace_invariant _ _).2 (by decide)⟩⟩

/-- C10 counterexample: on an input record that already violates the
subset property (connected-to-output mentions a name absent from
materials), `collect_group_usage` — here with no materials to scan —
returns the record unchanged, still violating the property; so the
claimed invariant does not hold for every input map. -/
theorem collect_group_usage_subset_counterexample :
    collect_group_usage
        [(c10k, { type := "GROUP", materials := [],
                  connected_to_output := ["ghost"], parent_tree := "NT" })] [] =
      [(c10k, { type := "GROUP", materials := [],
                connected_to_output := ["ghost"], parent_tree := "NT" })] ∧
    "ghost" ∈ ({ type := "GROUP", materials := [],
                 connected_to_output := ["ghost"],
                 parent_tree := "NT" } : Record).connected_to_output ∧
    "ghost" ∉ ({ type := "GROUP", materials := [],
                 connected_to_output := ["ghost"],
                 parent_tree := "NT" } : Record).materials :=
  ⟨rfl, by decide, by decide⟩

/-! ## Layout engine (claims C7, C8) -/

instance : Std.Antisymm (fun a b : ℚ => a ≤ b) where
  antisymm := @fun _ _ h1 h2 => le_antisymm h1 h2

lemma rat_min?_eq_some_iff (l : List ℚ) (a : ℚ) :
    l.min? = some a ↔ a ∈ l ∧ ∀ b ∈ l, a ≤ b :=
  List.min?_eq_some_iff (fun a => le_refl a) (fun a b => min_choice a b)
    (fun _ _ _ => le_min_iff)

lemma rat_max?_eq_some_iff (l : List ℚ) (a : ℚ) :
    l.max? = some a ↔ a ∈ l ∧ ∀ b ∈ l, b ≤ a :=
  List.max?_eq_some_iff (fun a => le_refl a) (fun a b => max_choice a b)
    (fun _ _ _ => max_le_iff)

lemma rat_min?_perm (l l2 : List ℚ) (h : l.Perm l2) : l.min? = l2.min? := by
  cases hl : l.min? with
  | none =>
    rw [List.min?_eq_none_iff] at hl
    subst hl
    rw [List.min?_eq_none_iff.mpr (List.Perm.nil_eq h).symm]
  | some a =>
    rw [rat_min?_eq_some_iff] at hl
    symm
    rw [rat_min?_eq_some_iff]
    exact ⟨h.subset hl.1, fun b hb => hl.2 b (h.symm.subset hb)⟩

lemma rat_max?_perm (l l2 : List ℚ) (h : l.Perm l2) : l.max? = l2.max? := by
  cases hl : l.max? with
  | none =>
    rw [List.max?_eq_none_iff] at hl
    subst hl
    rw [List.max?_eq_none_iff.mpr (List.Perm.nil_eq h).symm]
  | some a =>
    rw [rat_max?_eq_some_iff] at hl
    symm
    rw [rat_max?_eq_some_iff]
    exact ⟨h.subset hl.1, fun b hb => hl.2 b (h.symm.subset hb)⟩

lemma rat_max?_map_add (l : List ℚ) (d : ℚ) :
    (l.map (fun q => q + d)).max? = l.max?.map (fun q => q + d) := by
  cases hl : l.max? with
  | none =>
    rw [List.max?_eq_none_iff] at hl
    subst hl
    rfl
  | some a =>
    rw [rat_max?_eq_some_iff] at hl
    show (l.map (fun q => q + d)).max? = some (a + d)
    rw [rat_max?_eq_some_iff]
    constructor
    · exact List.mem_map.mpr ⟨a, hl.1, rfl⟩
    · intro b hb
      rcases List.mem_map.mp hb with ⟨c, hc, hce⟩
      rw [← hce]
      exact add_le_add_right (hl.2 c hc) d

lemma length_filter_partition {α : Type} (p : α → Bool) (l : List α) :
    (l.filter p).length + (l.filter (fun a => !(p a))).length = l.length := by
  induction l with
  | nil => rfl
  | cons a rest ih =>
    rw [List.filter_cons, List.filter_cons]
    cases hp : p a with
    | true => simp only [hp, Bool.not_true, if_true, Bool.false_eq_true, if_false,
        List.length_cons]; omega
    | false => simp only [hp, Bool.not_false, Bool.false_eq_true, if_false, if_true,
        List.length_cons]; omega

lemma gridPlace_length (sorted : List NodeData) (cols : Nat) (gx gy : ℚ) :
    (gridPlace sorted cols gx gy).length = sorted.length := by
  unfold gridPlace
  rw [List.length_map, List.enum_length]

lemma layout_nodes_grid_length (nodes : List NodeData) (cols : Nat) (gx gy : ℚ) :
    (layout_nodes_grid nodes cols gx gy).length = nodes.length := by
  unfold layout_nodes_grid
  by_cases h1 : nodes.isEmpty
  · rw [if_pos h1]
  · rw [if_neg h1]
    by_cases h2 : (nodes.filter (fun n => !(n.label == "_tmp_attr"))).isEmpty
    · rw [if_pos h2]
    · rw [if_neg h2]
      rw [List.length_append, gridPlace_length, List.length_map]
      rw [(List.perm_insertionSort gridBefore _).length_eq]
      rw [Nat.add_comm]
      exact length_filter_partition (fun n => n.label == "_tmp_attr") nodes

/-- C7.  For a non-empty group list, `place_group_left_of_used` returns
the grid-laid-out group translated horizontally by
`dx = (min-x of used − margin) − max-x of the laid-out group` (vertical
positions unchanged), so that the translated block's maximal x equals the
used nodes' minimal x minus exactly `margin` — the minimum defaulting to
`0` when `used_nodes` is empty — and every moved node's parent reference
is set to the id of the returned frame. -/
theorem place_group_left_of_used_spec (tree : NTree)
    (group_nodes used_nodes : List NodeData) (margin : ℚ)
    (hne : group_nodes ≠ []) :
    ∃ moved frame,
      place_group_left_of_used tree group_nodes used_nodes margin =
        some (moved, frame) ∧
      moved.map (fun n => n.y) =
        (layout_nodes_grid group_nodes).map (fun n => n.y) ∧
      moved.map (fun n => n.x) =
        (layout_nodes_grid group_nodes).map (fun n => n.x +
          ((((used_nodes.map (fun n => n.x)).min?).getD 0 - margin) -
            (((layout_nodes_grid group_nodes).map (fun n => n.x)).max?).getD 0)) ∧
      (moved.map (fun n => n.x)).max? =
        some (((used_nodes.map (fun n => n.x)).min?).getD 0 - margin) ∧
      ∀ n ∈ moved, n.parent = some frame.id := by
  have hempty : group_nodes.isEmpty = false := by
    cases group_nodes with
    | nil => exact absurd rfl hne
    | cons a rest => rfl
  have hlaid : (layout_nodes_grid group_nodes).length = group_nodes.length :=
    layout_nodes_grid_length group_nodes 6 120 80
  have hlaidne : (layout_nodes_grid group_nodes).map (fun n => n.x) ≠ [] := by
    intro hcon
    have := congrArg List.length hcon
    rw [List.length_map, hlaid] at this
    exact hne (List.length_eq_zero.mp this)
  obtain ⟨M, hM⟩ : ∃ M, ((layout_nodes_grid group_nodes).map (fun n => n.x)).max?
      = some M := by
    cases hmx : ((layout_nodes_grid group_nodes).map (fun n => n.x)).max? with
    | none => exact absurd (List.max?_eq_none_iff.mp hmx) hlaidne
    | some M => exact ⟨M, rfl⟩
  obtain ⟨moved, frame, hpl, hmv, hfr⟩ :
      ∃ moved frame,
        place_group_left_of_used tree group_nodes used_nodes margin =
          some (moved, frame) ∧
        moved = ((layout_nodes_grid group_nodes).map (fun n : NodeData =>
          { n with x := n.x +
            ((((used_nodes.map (fun n => n.x)).min?).getD 0 - margin) -
              (((layout_nodes_grid group_nodes).map (fun n => n.x)).max?).getD 0) })).map
          (fun n : NodeData => { n with parent := some (newFrameId tree) }) ∧
        frame.id = newFrameId tree := by
    unfold place_group_left_of_used
    rw [hempty]
    simp only [Bool.false_eq_true, if_false]
    exact ⟨_, _, rfl, rfl, rfl⟩
  subst hmv
  refine ⟨_, frame, hpl, ?_, ?_, ?_, ?_⟩
  · rw [List.map_map, List.map_map]
    rfl
  · rw [List.map_map, List.map_map]
    rfl
  · have hxs : (((layout_nodes_grid group_nodes).map (fun n : NodeData =>
        { n with x := n.x +
          ((((used_nodes.map (fun n => n.x)).min?).getD 0 - margin) -
            (((layout_nodes_grid group_nodes).map (fun n => n.x)).max?).getD 0) })).map
          (fun n : NodeData => { n with parent := some (newFrameId tree) })).map
            (fun n => n.x) =
        ((layout_nodes_grid group_nodes).map (fun n => n.x)).map
          (fun q => q +
            ((((used_nodes.map (fun n => n.x)).min?).getD 0 - margin) -
              (((layout_nodes_grid group_nodes).map (fun n => n.x)).max?).getD 0)) := by
      rw [List.map_map, List.map_map, List.map_map]
      rfl
    rw [hxs, rat_max?_map_add, hM]
    simp only [Option.map_some', Option.getD_some]
    congr 1
    ring
  · intro n hn
    rcases List.mem_map.mp hn with ⟨m, _, heq⟩
    rw [← heq, hfr]

/-- Tree receiving the frame in the C7 witness. -/
def c7tree : NTree := NTree.mk 9 "C7" (NodeEntries.ofList [])

/-- Witness for C7: one group node, empty used list (exercising the
`used_min_x` default of `0`). -/
theorem place_group_left_of_used_spec_witness :
    ([mkNode 60 "N" "TEX_NOISE" [] []] : List NodeData) ≠ [] ∧
    (∃ moved frame,
      place_group_left_of_used c7tree [mkNode 60 "N" "TEX_NOISE" [] []] [] 400 =
        some (moved, frame) ∧
      moved.map (fun n => n.y) =
        (layout_nodes_grid [mkNode 60 "N" "TEX_NOISE" [] []]).map (fun n => n.y) ∧
      moved.map (fun n => n.x) =
        (layout_nodes_grid [mkNode 60 "N" "TEX_NOISE" [] []]).map (fun n => n.x +
          (((([] : List NodeData).map (fun n => n.x)).min?.getD 0 - 400) -
            (((layout_nodes_grid [mkNode 60 "N" "TEX_NOISE" [] []]).map
              (fun n => n.x)).max?).getD 0)) ∧
      (moved.map (fun n => n.x)).max? =
        some ((([] : List NodeData).map (fun n => n.x)).min?.getD 0 - 400) ∧
      ∀ n ∈ moved, n.parent = some frame.id) :=
  ⟨by decide,
   place_group_left_of_used_spec c7tree [mkNode 60 "N" "TEX_NOISE" [] []] [] 400
     (by decide)⟩

lemma getD_set_self (l : List ℚ) (i : Nat) (v : ℚ) (h : i < l.length) :
    (l.set i v).getD i 0 = v := by
  rw [List.getD_eq_getElem?_getD, List.getElem?_set_self h]
  rfl

lemma getD_set_ne (l : List ℚ) (i j : Nat) (v : ℚ) (h : i ≠ j) :
    (l.set i v).getD j 0 = l.getD j 0 := by
  rw [List.getD_eq_getElem?_getD, List.getElem?_set_ne h,
    ← List.getD_eq_getElem?_getD]

lemma getD_out_of_range (l : List ℚ) (j : Nat) (h : l.length ≤ j) :
    l.getD j 0 = 0 := by
  rw [List.getD_eq_getElem?_getD, List.getElem?_eq_none h]
  rfl

lemma getD_append_single (l : List ℚ) (j : Nat) :
    (l ++ [0]).getD j 0 = l.getD j 0 := by
  rw [List.getD_eq_getElem?_getD, List.getElem?_append]
  by_cases hj : j < l.length
  · rw [if_pos hj, ← List.getD_eq_getElem?_getD]
  · rw [if_neg hj, getD_out_of_range l j (Nat.le_of_not_lt hj)]
    by_cases hj2 : j - l.length = 0
    · rw [hj2]
      rfl
    · rw [List.getElem?_eq_none (by simp; omega)]
      rfl

lemma colw_fold (cols : Nat) :
    ∀ (ps : List (Nat × NodeData)) (cw : List ℚ), cw.length = cols →
      ∀ c, c < cols →
        ((ps.foldl (fun cw p =>
            cw.set (p.1 % cols) (max (cw.getD (p.1 % cols) 0) p.2.width))
          cw).getD c 0)
        = ((ps.filter (fun p => p.1 % cols == c)).map
            (fun p => p.2.width)).foldl max (cw.getD c 0) := by
  intro ps
  induction ps with
  | nil => intro cw _ c _; rfl
  | cons p rest ih =>
    intro cw hlen c hc
    rw [List.foldl_cons, List.filter_cons]
    have hlen2 : (cw.set (p.1 % cols) (max (cw.getD (p.1 % cols) 0) p.2.width)).length
        = cols := by rw [List.length_set, hlen]
    by_cases hcol : p.1 % cols = c
    · simp only [hcol, beq_self_eq_true, if_true, List.map_cons, List.foldl_cons]
      rw [ih (cw.set c (max (cw.getD c 0) p.2.width))
        (by rw [List.length_set, hlen]) c hc]
      rw [getD_set_self cw c _ (by rw [hlen]; exact hc)]
    · have hbeq : (p.1 % cols == c) = false := by
        rw [beq_eq_false_iff_ne]
        exact hcol
      simp only [hbeq, Bool.false_eq_true, if_false]
      rw [ih (cw.set (p.1 % cols) (max (cw.getD (p.1 % cols) 0) p.2.width))
        hlen2 c hc]
      rw [getD_set_ne cw (p.1 % cols) c _ hcol]

lemma colWidths_length (sorted : List NodeData) (cols : Nat) :
    (colWidths sorted cols).length = cols := by
  unfold colWidths
  have := foldl_pred
    (fun cw (p : Nat × NodeData) =>
      cw.set (p.1 % cols) (max (cw.getD (p.1 % cols) 0) p.2.width))
    (fun cw : List ℚ => cw.length = cols)
    (fun acc x h => by
      show (acc.set (x.1 % cols) (max (acc.getD (x.1 % cols) 0) x.2.width)).length
        = cols
      rw [List.length_set]
      exact h)
    sorted.enum (List.replicate cols 0) (List.length_replicate ..)
  exact this

lemma colWidths_getD (sorted : List NodeData) (cols : Nat) (c : Nat)
    (hc : c < cols) :
    (colWidths sorted cols).getD c 0 =
      ((sorted.enum.filter (fun p => p.1 % cols == c)).map
        (fun p => p.2.width)).foldl max 0 := by
  unfold colWidths
  rw [colw_fold cols sorted.enum (List.replicate cols 0)
    (List.length_replicate ..) c hc]
  congr 1
  rw [List.getD_eq_getElem?_getD, List.getElem?_replicate]
  simp [hc]

/-- One step of the row-height loop (`utils.py` lines 259-267). -/
def rowStep (cols : Nat) (rh : List ℚ) (p : Nat × NodeData) : List ℚ :=
  let r := p.1 / cols
  let rh2 := if rh.length ≤ r then rh ++ [0] else rh
  rh2.set r (max (rh2.getD r 0) p.2.height)

lemma rowHeights_eq (sorted : List NodeData) (cols : Nat) :
    rowHeights sorted cols = sorted.enum.foldl (rowStep cols) [] := rfl

lemma rowh_fold (cols : Nat) (hc : 0 < cols) :
    ∀ (l : List NodeData) (i0 : Nat) (rh : List ℚ),
      i0 ≤ rh.length * cols → rh.length * cols < i0 + cols →
      (∀ r, (((l.enumFrom i0).foldl (rowStep cols) rh).getD r 0)
        = (((l.enumFrom i0).filter (fun p => p.1 / cols == r)).map
            (fun p => p.2.height)).foldl max (rh.getD r 0)) ∧
      i0 + l.length ≤ ((l.enumFrom i0).foldl (rowStep cols) rh).length * cols ∧
      ((l.enumFrom i0).foldl (rowStep cols) rh).length * cols <
        i0 + l.length + cols := by
  intro l
  induction l with
  | nil =>
    intro i0 rh h1 h2
    refine ⟨fun r => rfl, by simpa using h1, by simpa using h2⟩
  | cons x xs ih =>
    intro i0 rh h1 h2
    rw [List.enumFrom_cons]
    simp only [List.foldl_cons, List.filter_cons, List.length_cons]
    have hr0le : i0 / cols ≤ rh.length := by
      have hdiv : i0 / cols ≤ rh.length * cols / cols :=
        Nat.div_le_div_right h1
      rwa [Nat.mul_div_cancel _ hc] at hdiv
    by_cases hcase : rh.length ≤ i0 / cols
    · have hreq : i0 / cols = rh.length := le_antisymm hr0le hcase
      have hi0 : i0 = rh.length * cols := by
        have hge : rh.length * cols ≤ i0 := by
          calc rh.length * cols = i0 / cols * cols := by rw [hreq]
            _ ≤ i0 := Nat.div_mul_le_self i0 cols
        exact le_antisymm h1 hge
      have hstep : rowStep cols rh (i0, x) =
          (rh ++ [0]).set (i0 / cols)
            (max (rh.getD (i0 / cols) 0) x.height) := by
        dsimp only [rowStep]
        rw [if_pos hcase, getD_append_single]
      have hlen2 : (rowStep cols rh (i0, x)).length = rh.length + 1 := by
        rw [hstep, List.length_set, List.length_append]
        rfl
      have hb1 : i0 + 1 ≤ (rowStep cols rh (i0, x)).length * cols := by
        rw [hlen2, Nat.succ_mul]
        omega
      have hb2 : (rowStep cols rh (i0, x)).length * cols < i0 + 1 + cols := by
        rw [hlen2, Nat.succ_mul]
        omega
      obtain ⟨ihg, ihb1, ihb2⟩ := ih (i0 + 1) (rowStep cols rh (i0, x)) hb1 hb2
      refine ⟨?_, by omega, by omega⟩
      intro r
      rw [ihg r]
      by_cases hr : i0 / cols = r
      · have hbeq : (i0 / cols == r) = true := by
          rw [beq_iff_eq]; exact hr
        simp only [hbeq, if_true, List.map_cons, List.foldl_cons]
        congr 1
        rw [hstep, ← hr]
        rw [getD_set_self _ _ _
          (by rw [List.length_append, hreq]; exact Nat.lt_succ_self _)]
      · have hbeq : (i0 / cols == r) = false := by
          rw [beq_eq_false_iff_ne]; exact hr
        simp only [hbeq, Bool.false_eq_true, if_false]
        congr 1
        rw [hstep, getD_set_ne _ _ _ _ hr, getD_append_single]
    · have hlt : i0 / cols < rh.length := Nat.lt_of_not_le hcase
      have hstep : rowStep cols rh (i0, x) =
          rh.set (i0 / cols) (max (rh.getD (i0 / cols) 0) x.height) := by
        dsimp only [rowStep]
        rw [if_neg hcase]
      have hlen2 : (rowStep cols rh (i0, x)).length = rh.length := by
        rw [hstep, List.length_set]
      have hi0lt : i0 < rh.length * cols :=
        (Nat.div_lt_iff_lt_mul hc).mp hlt
      have hb1 : i0 + 1 ≤ (rowStep cols rh (i0, x)).length * cols := by
        rw [hlen2]
        omega
      have hb2 : (rowStep cols rh (i0, x)).length * cols < i0 + 1 + cols := by
        rw [hlen2]
        omega
      obtain ⟨ihg, ihb1, ihb2⟩ := ih (i0 + 1) (rowStep cols rh (i0, x)) hb1 hb2
      refine ⟨?_, by omega, by omega⟩
      intro r
      rw [ihg r]
      by_cases hr : i0 / cols = r
      · have hbeq : (i0 / cols == r) = true := by
          rw [beq_iff_eq]; exact hr
        simp only [hbeq, if_true, List.map_cons, List.foldl_cons]
        congr 1
        rw [hstep, ← hr]
        rw [getD_set_self _ _ _ hlt]
      · have hbeq : (i0 / cols == r) = false := by
          rw [beq_eq_false_iff_ne]; exact hr
        simp only [hbeq, Bool.false_eq_true, if_false]
        congr 1
        rw [hstep, getD_set_ne _ _ _ _ hr]

lemma rowHeights_getD (sorted : List NodeData) (cols : Nat) (hc : 0 < cols)
    (r : Nat) :
    (rowHeights sorted cols).getD r 0 =
      ((sorted.enum.filter (fun p => p.1 / cols == r)).map
        (fun p => p.2.height)).foldl max 0 := by
  rw [rowHeights_eq]
  have h := (rowh_fold cols hc sorted 0 [] (by simp) (by simpa using hc)).1 r
  simpa using h

lemma rowHeights_len_bound (sorted : List NodeData) (cols : Nat) (hc : 0 < cols) :
    sorted.length ≤ (rowHeights sorted cols).length * cols := by
  rw [rowHeights_eq]
  have h := (rowh_fold cols hc sorted 0 [] (by simp) (by simpa using hc)).2.1
  simpa using h

lemma sum_take_getD (l : List ℚ) : ∀ c, c ≤ l.length →
    (l.take c).sum = ∑ m ∈ Finset.range c, l.getD m 0 := by
  intro c
  induction c with
  | zero => intro _; simp
  | succ c ih =>
    intro hc
    have hclt : c < l.length := Nat.lt_of_succ_le hc
    rw [List.sum_take_succ l c hclt, Finset.sum_range_succ,
      ih (Nat.le_of_lt hclt), List.getD_eq_getElem l 0 hclt]

lemma gridPlace_get (sorted : List NodeData) (cols : Nat) (gx gy : ℚ) (i : Nat)
    (h1 : i < (gridPlace sorted cols gx gy).length) (h2 : i < sorted.length) :
    (gridPlace sorted cols gx gy).get ⟨i, h1⟩ =
      { sorted.get ⟨i, h2⟩ with
        x := ((sorted.map (fun n => n.x)).min?).getD 0 +
          ((colWidths sorted cols).take (i % cols)).sum +
          ((i % cols : Nat) : ℚ) * gx,
        y := ((sorted.map (fun n => n.y)).max?).getD 0 -
          ((rowHeights sorted cols).take (i / cols)).sum -
          ((i / cols : Nat) : ℚ) * gy } := by
  simp only [gridPlace, List.get_eq_getElem, List.getElem_map, List.getElem_enum]

instance : IsTotal NodeData gridBefore where
  total := by
    intro a b
    unfold gridBefore
    rcases lt_trichotomy a.y b.y with h | h | h
    · right; left; exact h
    · rcases le_total a.x b.x with hx | hx
      · left; right; exact ⟨h, hx⟩
      · right; right; exact ⟨h.symm, hx⟩
    · left; left; exact h

instance : IsTrans NodeData gridBefore where
  trans := by
    intro a b c hab hbc
    unfold gridBefore at hab hbc ⊢
    rcases hab with h1 | ⟨h1, h1x⟩
    · rcases hbc with h2 | ⟨h2, h2x⟩
      · left; exact lt_trans h2 h1
      · left; rw [← h2]; exact h1
    · rcases hbc with h2 | ⟨h2, h2x⟩
      · left; rw [h1]; exact h2
      · right; exact ⟨h1.trans h2, le_trans h1x h2x⟩

lemma layout_no_attr (nodes : List NodeData) (cols : Nat) (gx gy : ℚ)
    (hne : nodes.isEmpty = false)
    (hattr : ∀ n ∈ nodes, (n.label == "_tmp_attr") = false) :
    layout_nodes_grid nodes cols gx gy =
      gridPlace (nodes.insertionSort gridBefore) cols gx gy := by
  unfold layout_nodes_grid
  rw [hne]
  simp only [Bool.false_eq_true, if_false]
  have hfa : nodes.filter (fun n => n.label == "_tmp_attr") = [] := by
    rw [List.filter_eq_nil_iff]
    intro a ha
    rw [hattr a ha]
    simp
  have hfr : nodes.filter (fun n => !(n.label == "_tmp_attr")) = nodes := by
    rw [List.filter_eq_self]
    intro a ha
    rw [hattr a ha]
    rfl
  rw [hfa, hfr, hne]
  simp only [Bool.false_eq_true, if_false, List.map_nil, List.append_nil]

/-- C8.  For a non-empty node list with no attribute markers and a
positive column count: the layout sorts the nodes by descending `y`, ties
by ascending `x` (a permutation of the input, pairwise in that order),
preserves the node count, and places the `i`-th sorted node (row
`i / cols`, column `i % cols`) at
`x = origin_x + Σ_(m < col) colWidth m + col · gap_x` and
`y = origin_y − Σ_(m < row) rowHeight m − row · gap_y`, where
`colWidth m` / `rowHeight m` are the maxima of the widths/heights of the
nodes assigned to column/row `m` and the origin is the min-x / max-y of
the input nodes prior to layout. -/
theorem layout_nodes_grid_spec (nodes : List NodeData) (cols : Nat) (gx gy : ℚ)
    (hne : nodes ≠ []) (hc : 0 < cols)
    (hattr : ∀ n ∈ nodes, n.label ≠ "_tmp_attr") :
    (nodes.insertionSort gridBefore).Perm nodes ∧
    List.Sorted gridBefore (nodes.insertionSort gridBefore) ∧
    (layout_nodes_grid nodes cols gx gy).length = nodes.length ∧
    ∀ i, ∀ h1 : i < (layout_nodes_grid nodes cols gx gy).length,
      ∀ h2 : i < (nodes.insertionSort gridBefore).length,
      (layout_nodes_grid nodes cols gx gy).get ⟨i, h1⟩ =
        { (nodes.insertionSort gridBefore).get ⟨i, h2⟩ with
          x := ((nodes.map (fun n => n.x)).min?).getD 0 +
            (∑ m ∈ Finset.range (i % cols),
              (((nodes.insertionSort gridBefore).enum.filter
                (fun p => p.1 % cols == m)).map
                  (fun p => p.2.width)).foldl max 0) +
            ((i % cols : Nat) : ℚ) * gx,
          y := ((nodes.map (fun n => n.y)).max?).getD 0 -
            (∑ m ∈ Finset.range (i / cols),
              (((nodes.insertionSort gridBefore).enum.filter
                (fun p => p.1 / cols == m)).map
                  (fun p => p.2.height)).foldl max 0) -
            ((i / cols : Nat) : ℚ) * gy } := by
  have hperm := List.perm_insertionSort gridBefore nodes
  refine ⟨hperm, List.sorted_insertionSort gridBefore nodes,
    layout_nodes_grid_length nodes cols gx gy, ?_⟩
  intro i h1 h2
  have hattr2 : ∀ n ∈ nodes, (n.label == "_tmp_attr") = false := by
    intro n hn
    rw [beq_eq_false_iff_ne]
    exact hattr n hn
  have hne2 : nodes.isEmpty = false := by
    cases nodes with
    | nil => exact absurd rfl hne
    | cons a l => rfl
  have hlay := layout_no_attr nodes cols gx gy hne2 hattr2
  have h1g : i < (gridPlace (nodes.insertionSort gridBefore) cols gx gy).length := by
    rw [← hlay]
    exact h1
  have hlists : (layout_nodes_grid nodes cols gx gy).get ⟨i, h1⟩ =
      (gridPlace (nodes.insertionSort gridBefore) cols gx gy).get ⟨i, h1g⟩ := by
    simp only [List.get_eq_getElem]
    congr 1
  have hpx : ((nodes.insertionSort gridBefore).map (fun n => n.x)).min? =
      (nodes.map (fun n => n.x)).min? :=
    rat_min?_perm _ _ (hperm.map _)
  have hpy : ((nodes.insertionSort gridBefore).map (fun n => n.y)).max? =
      (nodes.map (fun n => n.y)).max? :=
    rat_max?_perm _ _ (hperm.map _)
  have hsum1 : ((colWidths (nodes.insertionSort gridBefore) cols).take
      (i % cols)).sum =
      ∑ m ∈ Finset.range (i % cols),
        (((nodes.insertionSort gridBefore).enum.filter
          (fun p => p.1 % cols == m)).map (fun p => p.2.width)).foldl max 0 := by
    rw [sum_take_getD _ _ (by
      rw [colWidths_length]
      exact Nat.le_of_lt (Nat.mod_lt i hc))]
    apply Finset.sum_congr rfl
    intro m hm
    exact colWidths_getD _ cols m
      (lt_trans (Finset.mem_range.mp hm) (Nat.mod_lt i hc))
  have hrlen : i / cols ≤ (rowHeights (nodes.insertionSort gridBefore) cols).length := by
    have hb := rowHeights_len_bound (nodes.insertionSort gridBefore) cols hc
    have hi2 : i < (rowHeights (nodes.insertionSort gridBefore) cols).length * cols :=
      lt_of_lt_of_le h2 hb
    exact Nat.le_of_lt ((Nat.div_lt_iff_lt_mul hc).mpr hi2)
  have hsum2 : ((rowHeights (nodes.insertionSort gridBefore) cols).take
      (i / cols)).sum =
      ∑ m ∈ Finset.range (i / cols),
        (((nodes.insertionSort gridBefore).enum.filter
          (fun p => p.1 / cols == m)).map (fun p => p.2.height)).foldl max 0 := by
    rw [sum_take_getD _ _ hrlen]
    apply Finset.sum_congr rfl
    intro m _
    exact rowHeights_getD _ cols hc m
  rw [hlists, gridPlace_get _ cols gx gy i h1g h2, ← hpx, ← hpy, ← hsum1, ← hsum2]

/-- Input nodes of the C8 witness (varied positions). -/
def c8nodes : List NodeData :=
  [{ mkNode 70 "A" "TEX_NOISE" [] [] with x := 5, y := 0 },
   { mkNode 71 "B" "TEX_NOISE" [] [] with x := 0, y := 3 },
   { mkNode 72 "C" "TEX_NOISE" [] [] with x := 2, y := 3 }]

/-- Witness for C8 at three concrete nodes, two columns. -/
theorem layout_nodes_grid_spec_witness :
    (c8nodes ≠ [] ∧ 0 < 2 ∧ ∀ n ∈ c8nodes, n.label ≠ "_tmp_attr") ∧
    ((c8nodes.insertionSort gridBefore).Perm c8nodes ∧
      List.Sorted gridBefore (c8nodes.insertionSort gridBefore) ∧
      (layout_nodes_grid c8nodes 2 10 5).length = c8nodes.length ∧
      ∀ i, ∀ h1 : i < (layout_nodes_grid c8nodes 2 10 5).length,
        ∀ h2 : i < (c8nodes.insertionSort gridBefore).length,
        (layout_nodes_grid c8nodes 2 10 5).get ⟨i, h1⟩ =
          { (c8nodes.insertionSort gridBefore).get ⟨i, h2⟩ with
            x := ((c8nodes.map (fun n => n.x)).min?).getD 0 +
              (∑ m ∈ Finset.range (i % 2),
                (((c8nodes.insertionSort gridBefore).enum.filter
                  (fun p => p.1 % 2 == m)).map
                    (fun p => p.2.width)).foldl max 0) +
              ((i % 2 : Nat) : ℚ) * 10,
            y := ((c8nodes.map (fun n => n.y)).max?).getD 0 -
              (∑ m ∈ Finset.range (i / 2),
                (((c8nodes.insertionSort gridBefore).enum.filter
                  (fun p => p.1 / 2 == m)).map
                    (fun p => p.2.height)).foldl max 0) -
              ((i / 2 : Nat) : ℚ) * 5 }) :=
  ⟨⟨by decide, by decide, by decide⟩,
   layout_nodes_grid_spec c8nodes 2 10 5 (by decide) (by decide) (by decide)⟩
